import Mathlib

/-!
suntimes: a verification development.

A shallow embedding of `suntimes.go` (a command-line front end for
api.sunrise-sunset.org) and of the parts of the Go standard library its
decoders rest on (`strings.Trim`, `strings.Split`, `strconv.Atoi`,
`time.Duration.Round`, `time.Parse` and `time.Time.Format` for the two layouts
the program uses, `text/template` for the `report` template).

Conventions.
* Go `string`s are Lean `String`s; the byte-level operations used by the program
  only ever test for ASCII bytes, so working on characters is equivalent.
* `int` and `int64` are integers with explicit wrap-around to 64 bits
  (`wrap64`); Go's `/` and `%` truncate toward zero (`Int.tdiv`, `Int.tmod`).
* `check(err)` calls `log.Fatal`, which ends the process: a decoder that reaches
  it returns `Except.error`.
* A method with a pointer receiver is a function from the value stored at the
  receiver before the call to the value stored there after the call.
-/

namespace Suntimes

/-! ## Errors -/

/-- The errors the modelled library functions hand to `check`. -/
inductive GoError where
  /-- Go `strconv.ErrSyntax` -/
  | numSyntax
  /-- Go `strconv.ErrRange` -/
  | numRange
  /-- Go `time.ParseError`, whatever its message -/
  | timeParse
  /-- Go `errors.New("invalid latitude: ...")` -/
  | invalidLatitude
  /-- Go `errors.New("invalid longitude: ...")` -/
  | invalidLongitude
  /-- A template that does not parse -/
  | templateParse
  /-- Template execution error -/
  | templateExec
  deriving DecidableEq, Repr

/-- Decidable equality of results, so that closed instances evaluate. -/
instance instDecidableEqExcept {ε α : Type} [DecidableEq ε] [DecidableEq α] :
    DecidableEq (Except ε α)
  | .ok a, .ok b => if h : a = b then isTrue (by rw [h]) else isFalse (by intro hh; cases hh; exact h rfl)
  | .error a, .error b =>
    if h : a = b then isTrue (by rw [h]) else isFalse (by intro hh; cases hh; exact h rfl)
  | .ok _, .error _ => isFalse (by intro hh; cases hh)
  | .error _, .ok _ => isFalse (by intro hh; cases hh)

/-! ## `strings.Trim` with a one-byte cutset -/

/-- Go `strings.trimLeftByte`. -/
def trimLeftByte : List Char → Char → List Char
  | [], _ => []
  | x :: xs, c => if x = c then trimLeftByte xs c else x :: xs

/-- Go `strings.trimRightByte`. -/
def trimRightByte (s : List Char) (c : Char) : List Char :=
  (trimLeftByte s.reverse c).reverse

/-- Go `strings.Trim(s, cutset)` for a cutset of one ASCII byte:
`trimLeftByte(trimRightByte(s, cutset[0]), cutset[0])`. -/
def Trim (s : String) (cutset : Char) : String :=
  ⟨trimLeftByte (trimRightByte s.data cutset) cutset⟩

/-! ## `strconv.Atoi` -/

/-- The size of Go's `int` in bits (a 64-bit platform). -/
def intSize : Nat := 64

/-- Wrap-around of a mathematical integer to a signed 64-bit one. -/
def wrap64 (x : Int) : Int := (x + 2 ^ 63) % 2 ^ 64 - 2 ^ 63

/-- Whether a byte is a decimal digit. -/
def isDigitChar (c : Char) : Bool := decide ('0' ≤ c) && decide (c ≤ '9')

/-- The value of a decimal digit, `c - '0'`. -/
def digitVal (c : Char) : Nat := c.toNat - 48

/-- The digit loop of `strconv.ParseUint(s, 10, 64)`: every byte must be a
decimal digit, and the accumulated value must stay below `2^64`. -/
def parseUintLoop : List Char → Nat → Except GoError Nat
  | [], n => .ok n
  | c :: cs, n =>
    if isDigitChar c then
      let n1 := n * 10 + digitVal c
      if n1 ≥ 2 ^ 64 then .error .numRange else parseUintLoop cs n1
    else .error .numSyntax

/-- Go `strconv.ParseUint(s, 10, 64)`: the empty text is a syntax error, any other
text goes through the digit loop, which returns at the first byte that is not a
digit or that makes the value overflow. -/
def ParseUint (s : List Char) : Except GoError Nat :=
  match s with
  | [] => .error .numSyntax
  | _ => parseUintLoop s 0

/-- Go `strconv.ParseInt(s, 10, 0)`: an optional sign, then `ParseUint`, then the
check against the cutoff `2^(intSize-1)`. -/
def ParseInt (s : List Char) : Except GoError Int :=
  match s with
  | [] => .error .numSyntax
  | c :: cs =>
    let neg := decide (c = '-')
    let body := if c = '+' ∨ c = '-' then cs else c :: cs
    match ParseUint body with
    | .error e => .error e
    | .ok un =>
      let cutoff : Nat := 2 ^ (intSize - 1)
      if !neg && decide (un ≥ cutoff) then .error .numRange
      else if neg && decide (un > cutoff) then .error .numRange
      else .ok (if neg then -(un : Int) else (un : Int))

/-- Go `strconv.Atoi`. Its fast path for short inputs computes the same result as
`ParseInt(s, 10, 0)`, which is what is modelled. -/
def Atoi (s : String) : Except GoError Int := ParseInt s.data

/-! ## `time.Duration` -/

/-- Go `time.Second`, in nanoseconds. -/
def Second : Int := 1000000000
/-- Go `time.Minute`. -/
def Minute : Int := 60 * Second
/-- Go `time.Hour`. -/
def Hour : Int := 60 * Minute
/-- Go `time.minDuration`. -/
def minDuration : Int := -(2 ^ 63)
/-- Go `time.maxDuration`. -/
def maxDuration : Int := 2 ^ 63 - 1

/-- Go `time.lessThanHalf`: `uint64(x)+uint64(x) < uint64(y)`. -/
def lessThanHalf (x y : Int) : Bool :=
  decide ((x % 2 ^ 64 + x % 2 ^ 64) % 2 ^ 64 < y % 2 ^ 64)

/-- Go `time.Duration.Round`. -/
def Round (d m : Int) : Int :=
  if m ≤ 0 then d
  else
    let r := Int.tmod d m
    if d < 0 then
      let r := wrap64 (-r)
      if lessThanHalf r m then wrap64 (d + r)
      else
        let d1 := wrap64 (wrap64 (d - m) + r)
        if d1 < d then d1 else minDuration
    else
      if lessThanHalf r m then wrap64 (d - r)
      else
        let d1 := wrap64 (wrap64 (d + m) - r)
        if d1 > d then d1 else maxDuration

/-- Go `fmt` verb `%d` on a signed integer. -/
def fmtD (i : Int) : String :=
  match i with
  | Int.ofNat n => Nat.repr n
  | Int.negSucc n => "-" ++ Nat.repr (n + 1)

/-- The `fmt.Sprintf("%dh %dm %ds", h, m, sec)` of `Duration.UnmarshalJSON`. -/
def sprintfHMS (h m sec : Int) : String :=
  fmtD h ++ "h " ++ fmtD m ++ "m " ++ fmtD sec ++ "s"

/-- The arithmetic of `Duration.UnmarshalJSON` after `strconv.Atoi`: the three
numbers handed to `Sprintf`. -/
def durationParts (duration : Int) : Int × Int × Int :=
  let d := wrap64 (duration * Second)
  let d := Round d Second
  let h := Int.tdiv d Hour
  let d := wrap64 (d - wrap64 (h * Hour))
  let m := Int.tdiv d Minute
  let d := wrap64 (d - wrap64 (m * Minute))
  let sec := Int.tdiv d Second
  (h, m, sec)

/-- Go `(du *Duration) UnmarshalJSON(b)`. `du` is the value stored at the
receiver before the call; the result is the value stored there after it.
In the `null` branch the source assigns to the local pointer `du`
(`du = new(Duration)`), which leaves the receiver's value as it was. -/
def Duration.UnmarshalJSON (du : String) (b : String) : Except GoError String :=
  let s := Trim b '"'
  if s = "null" then .ok du
  else
    match Atoi s with
    | .error e => .error e
    | .ok duration =>
      let (h, m, sec) := durationParts duration
      .ok (sprintfHMS h m sec)


/-! ## `time.Parse` for the layout `2006-01-02T15:04:05-07:00`

The layout splits into the chunks `stdLongYear`, `-`, `stdZeroMonth`, `-`,
`stdZeroDay`, `T`, `stdHour`, `:`, `stdZeroMinute`, `:`, `stdZeroSecond`,
`stdNumColonTZ`; `Parse` below is the loop of Go's `time.parse` unrolled along
these chunks. -/

/-- Go `time.isDigit(s, i)`. -/
def isDigit (s : List Char) (i : Nat) : Bool :=
  match s.drop i with
  | [] => false
  | c :: _ => isDigitChar c

/-- Go `time.getnum`: a one- or two-digit number; `fixed` asks for two digits. -/
def getnum (s : List Char) (fixed : Bool) : Except GoError (Int × List Char) :=
  if !isDigit s 0 then .error .timeParse
  else if !isDigit s 1 then
    if fixed then .error .timeParse
    else .ok ((digitVal (s.headD '0') : Int), s.drop 1)
  else
    .ok ((digitVal (s.headD '0') : Int) * 10 + (digitVal ((s.drop 1).headD '0') : Int),
      s.drop 2)

/-- Go `time.skip` for a layout text without spaces: the value must start with
the text. -/
def skip : List Char → List Char → Except GoError (List Char)
  | value, [] => .ok value
  | [], _ :: _ => .error .timeParse
  | v :: vs, p :: ps => if v = p then skip vs ps else .error .timeParse

/-- Go `time.leadingInt`: the leading decimal digits and the rest. -/
def leadingInt : List Char → Nat → Except GoError (Nat × List Char)
  | [], x => .ok (x, [])
  | c :: cs, x =>
    if !isDigitChar c then .ok (x, c :: cs)
    else if x > 2 ^ 63 / 10 then .error .timeParse
    else
      let x1 := x * 10 + digitVal c
      if x1 > 2 ^ 63 then .error .timeParse else leadingInt cs x1

/-- Go `time.atoi`. -/
def atoi (s : List Char) : Except GoError Int :=
  let neg := decide (s.head? = some '-')
  let s1 := if s.head? = some '-' ∨ s.head? = some '+' then s.drop 1 else s
  match leadingInt s1 0 with
  | .error e => .error e
  | .ok (q, rem) =>
    if rem ≠ [] then .error .timeParse
    else .ok (if neg then -(q : Int) else (q : Int))

/-- Go `time.commaOrPeriod`. -/
def commaOrPeriod (c : Char) : Bool := decide (c = '.') || decide (c = ',')

/-- Go `time.parseNanoseconds(value, nbytes)`. -/
def parseNanoseconds (value : List Char) (nbytes : Nat) : Except GoError Int :=
  if !commaOrPeriod (value.headD ' ') then .error .timeParse
  else
    let value1 := if nbytes > 10 then value.take 10 else value
    let nbytes1 := if nbytes > 10 then 10 else nbytes
    match atoi ((value1.take nbytes1).drop 1) with
    | .error e => .error e
    | .ok ns =>
      if ns < 0 then .error .timeParse
      else .ok (ns * 10 ^ (10 - nbytes1))

/-- Go `time.isLeap`. -/
def isLeap (year : Int) : Bool :=
  decide (year % 4 = 0) && (decide (year % 100 ≠ 0) || decide (year % 400 = 0))

/-- Go `time.daysBefore`: entry `m` is the number of days in a non-leap year before
month `m + 1` begins. -/
def daysBefore : List Int := [0, 31, 59, 90, 120, 151, 181, 212, 243, 273, 304, 334, 365]

/-- Go `time.daysIn`. -/
def daysIn (m : Int) (year : Int) : Int :=
  if m = 2 ∧ isLeap year = true then 29
  else daysBefore.getD m.toNat 0 - daysBefore.getD (m.toNat - 1) 0

/-- Go `time.absoluteZeroYear`. -/
def absoluteZeroYear : Int := -292277022399
/-- Go `time.unixToInternal`. -/
def unixToInternal : Int := (1969 * 365 + 1969 / 4 - 1969 / 100 + 1969 / 400) * 86400
/-- Go `time.absoluteToInternal`: `(absoluteZeroYear - internalYear) * 365.2425` days. -/
def absoluteToInternal : Int := -292277022400 * 31556952
/-- Go `time.internalToAbsolute`. -/
def internalToAbsolute : Int := -absoluteToInternal
/-- Go `time.internalToUnix`. -/
def internalToUnix : Int := -unixToInternal

/-- Go `time.norm`. -/
def norm (hi lo base : Int) : Int × Int :=
  let n1 := Int.tdiv (-lo - 1) base + 1
  let hi1 := if lo < 0 then hi - n1 else hi
  let lo1 := if lo < 0 then lo + n1 * base else lo
  let n2 := Int.tdiv lo1 base
  if lo1 ≥ base then (hi1 + n2, lo1 - n2 * base) else (hi1, lo1)

/-- Go `time.daysSinceEpoch`: days from the absolute epoch to the start of `year`. -/
def daysSinceEpoch (year : Int) : Int :=
  let y := (year - absoluteZeroYear) % 2 ^ 64
  let n := y / 400
  let y := y - 400 * n
  let d := 146097 * n
  let n := y / 100
  let y := y - 100 * n
  let d := d + 36524 * n
  let n := y / 4
  let y := y - 4 * n
  let d := d + 1461 * n
  d + 365 * y

/-- Go `time.Date(year, month, day, hour, min, sec, nsec, UTC)`: the Unix seconds of
the instant (the computation of Go 1.22; later releases compute the same value). -/
def Date (year month day hour min sec nsec : Int) : Int :=
  let m := month - 1
  let (year, m) := norm year m 12
  let month := m + 1
  let (sec, _) := norm sec nsec 1000000000
  let (min, sec) := norm min sec 60
  let (hour, min) := norm hour min 60
  let (day, hour) := norm day hour 24
  let d := daysSinceEpoch year
  let d := d + daysBefore.getD (month - 1).toNat 0
  let d := if isLeap year = true ∧ month ≥ 3 then d + 1 else d
  let d := (d + (day - 1) % 2 ^ 64) % 2 ^ 64
  let abs := (d * 86400) % 2 ^ 64
  let abs := (abs + (hour * 3600 + min * 60 + sec) % 2 ^ 64) % 2 ^ 64
  wrap64 (wrap64 abs + (absoluteToInternal + internalToUnix))

/-- A `time.Time` as far as `Format` needs it: the instant in Unix seconds, the
nanoseconds, and the offset east of UTC (in seconds) of its location at that
instant. -/
structure Time where
  /-- Seconds since the Unix epoch. -/
  unixSec : Int
  /-- Nanoseconds within the second. -/
  nsec : Int
  /-- Offset of the location, seconds east of UTC. -/
  offset : Int
  deriving DecidableEq, Repr

/-- An error when the condition holds. -/
def failIf (c : Bool) (e : GoError) : Except GoError Unit :=
  if c then .error e else .ok ()

/-- The fractional second that `stdSecond` accepts when the layout has none: a
comma or period followed by digits. Returns the nanoseconds and the rest. -/
def parseFraction (value : List Char) : Except GoError (Int × List Char) :=
  if decide (value.length ≥ 2) && commaOrPeriod (value.headD ' ') && isDigit value 1 then
    let n := 2 + ((value.drop 2).takeWhile isDigitChar).length
    match parseNanoseconds value n with
    | .error e => .error e
    | .ok nsec => .ok (nsec, value.drop n)
  else .ok (0, value)

/-- The `stdNumColonTZ` chunk `-07:00`: the zone offset in seconds and the rest. -/
def parseNumColonTZ (value : List Char) : Except GoError (Int × List Char) :=
  if value.length < 6 then .error .timeParse
  else if value.get? 3 ≠ some ':' then .error .timeParse
  else
    let sign := value.headD ' '
    let hour := (value.drop 1).take 2
    let min := (value.drop 4).take 2
    let seconds := ['0', '0']
    let rest := value.drop 6
    let r : Except GoError (Int × Int × Int) :=
      match getnum hour true with
      | .error e => .error e
      | .ok (hr, _) =>
        match getnum min true with
        | .error e => .error e
        | .ok (mm, _) =>
          match getnum seconds true with
          | .error e => .error e
          | .ok (ss, _) => .ok (hr, mm, ss)
    match r with
    | .error e => .error e
    | .ok (hr, mm, ss) =>
      if hr > 24 ∨ mm > 60 ∨ ss > 60 then .error .timeParse
      else
        let zoneOffset := (hr * 60 + mm) * 60 + ss
        if sign = '+' then .ok (zoneOffset, rest)
        else if sign = '-' then .ok (-zoneOffset, rest)
        else .error .timeParse

/-- The chunk `stdLongYear`: four bytes, the first a digit, read by `atoi`. -/
def parseLongYear (value : List Char) : Except GoError (Int × List Char) := do
  failIf (decide (value.length < 4) || !isDigit value 0) .timeParse
  let year ← atoi (value.take 4)
  pure (year, value.drop 4)

/-- The chunks `2006-01-02T` of the layout: year, month and day, and the rest of
the value. The day is only read here; it is validated once the whole value is
parsed. -/
def parseDateChunks (value : List Char) : Except GoError (Int × Int × Int × List Char) := do
  -- stdLongYear
  let (year, value) ← parseLongYear value
  let value ← skip value ['-']
  -- stdZeroMonth
  let (month, value) ← getnum value true
  failIf (decide (month ≤ 0) || decide (12 < month)) .timeParse
  let value ← skip value ['-']
  -- stdZeroDay
  let (day, value) ← getnum value true
  let value ← skip value ['T']
  pure (year, month, day, value)

/-- The chunks `15:04:05` of the layout: hour, minute, second and the fractional
second that may follow, and the rest of the value. -/
def parseClockChunks (value : List Char) :
    Except GoError (Int × Int × Int × Int × List Char) := do
  -- stdHour
  let (hour, value) ← getnum value false
  failIf (decide (hour < 0) || decide (24 ≤ hour)) .timeParse
  let value ← skip value [':']
  -- stdZeroMinute
  let (min, value) ← getnum value true
  failIf (decide (min < 0) || decide (60 ≤ min)) .timeParse
  let value ← skip value [':']
  -- stdZeroSecond
  let (sec, value) ← getnum value true
  failIf (decide (sec < 0) || decide (60 ≤ sec)) .timeParse
  let (nsec, value) ← parseFraction value
  pure (hour, min, sec, nsec, value)

/-- Go `time.Parse("2006-01-02T15:04:05-07:00", value)`. With a zone offset in the
value, Go returns the instant in a location whose offset at that instant is the
parsed offset (the local zone when it has that offset there, a fixed zone
otherwise); the offset `-1` is the marker of `time.parse` for an absent offset
and falls back to UTC. -/
def Parse (value : List Char) : Except GoError Time := do
  let (year, month, day, value) ← parseDateChunks value
  let (hour, min, sec, nsec, value) ← parseClockChunks value
  -- stdNumColonTZ
  let (zoneOffset, value) ← parseNumColonTZ value
  -- end of layout
  failIf (decide (value ≠ [])) .timeParse
  -- validate the day of the month
  failIf (decide (day < 1) || decide (day > daysIn month year)) .timeParse
  if zoneOffset ≠ -1 then
    let unix := Date year month day hour min sec nsec
    pure { unixSec := unix - zoneOffset, nsec := nsec, offset := zoneOffset }
  else
    pure { unixSec := Date year month day hour min sec nsec, nsec := nsec, offset := 0 }

/-! ## `time.Time.Format` for the layout `15:04:05` -/

/-- Go `time.absClock`: hour, minute and second within the day. -/
def absClock (abs : Int) : Int × Int × Int :=
  let sec := abs % 86400
  let hour := sec / 3600
  let sec := sec - hour * 3600
  let min := sec / 60
  let sec := sec - min * 60
  (hour, min, sec)

/-- Go `time.appendInt`: decimal, zero-padded to `width`. -/
def appendInt (x : Int) (width : Nat) : List Char :=
  let ds := Nat.toDigits 10 x.natAbs
  (if x < 0 then ['-'] else []) ++ List.replicate (width - ds.length) '0' ++ ds

/-- Go `t.Format("15:04:05")`: `stdHour`, `:`, `stdZeroMinute`, `:`,
`stdZeroSecond` of the clock at `t.abs()`. -/
def Format (t : Time) : String :=
  let abs := (wrap64 (wrap64 (t.unixSec + t.offset) + (unixToInternal + internalToAbsolute)))
    % 2 ^ 64
  let (hour, min, sec) := absClock abs
  ⟨appendInt hour 2 ++ [':'] ++ appendInt min 2 ++ [':'] ++ appendInt sec 2⟩

/-- Go `(ts *Timestamp) UnmarshalJSON(b)`. `ts` is the value stored at the receiver
before the call; the result is the value stored there after it. In the `null`
branch the source assigns to the local pointer `ts` (`ts = new(Timestamp)`),
which leaves the receiver's value as it was. -/
def Timestamp.UnmarshalJSON (ts : String) (b : String) : Except GoError String :=
  let s := Trim b '"'
  if s = "null" then .ok ts
  else
    match Parse s.data with
    | .error e => .error e
    | .ok timestamp => .ok (Format timestamp)


/-! ## `strings.Split` with a one-byte separator -/

/-- The pieces of a text between occurrences of the separator. -/
def splitChars : List Char → Char → List (List Char)
  | [], _ => [[]]
  | c :: cs, sep =>
    if c = sep then [] :: splitChars cs sep
    else
      match splitChars cs sep with
      | [] => [[c]]
      | piece :: pieces => (c :: piece) :: pieces

/-- Go `strings.Split(s, sep)` for a separator of one ASCII byte: every occurrence
of the separator ends a piece. -/
def Split (s : String) (sep : Char) : List String :=
  (splitChars s.data sep).map String.mk

/-! ## `float64` and `strconv.ParseFloat` -/

/-- The values of a `float64` as far as the program's comparisons can tell them
apart: not-a-number, the two infinities, and the finite values (kept as
rationals). -/
inductive F64 where
  /-- Go `math.NaN()` -/
  | nan
  /-- Go `math.Inf(-1)` -/
  | negInf
  /-- Go `math.Inf(1)` -/
  | posInf
  /-- A finite value -/
  | fin (q : ℚ)
  deriving DecidableEq

/-- Go `<` on `float64`: false as soon as an operand is NaN. -/
def F64.lt : F64 → F64 → Bool
  | .nan, _ => false
  | _, .nan => false
  | .negInf, .negInf => false
  | .negInf, _ => true
  | _, .negInf => false
  | .posInf, _ => false
  | .fin _, .posInf => true
  | .fin p, .fin q => decide (p < q)

/-- Go `>` on `float64`. -/
def F64.gt (a b : F64) : Bool := F64.lt b a

/-- ASCII lower-casing of `strconv.commonPrefixLenIgnoreCase`. -/
def lower (c : Char) : Char :=
  if 'A' ≤ c ∧ c ≤ 'Z' then Char.ofNat (c.toNat + 32) else c

/-- Go `strconv.commonPrefixLenIgnoreCase(s, pre)`, for a lower-case `pre`. -/
def commonPrefixLenIgnoreCase : List Char → List Char → Nat
  | c :: cs, p :: ps => if lower c = p then 1 + commonPrefixLenIgnoreCase cs ps else 0
  | _, _ => 0

/-- The `inf`/`infinity` case of `strconv.special`, shared by the signed and the
unsigned spelling. -/
def specialInf (s : List Char) (neg : Bool) (nsign : Nat) : Option (F64 × Nat) :=
  let n := commonPrefixLenIgnoreCase s "infinity".data
  let n := if 3 < n ∧ n < 8 then 3 else n
  if n = 3 ∨ n = 8 then some (if neg then F64.negInf else F64.posInf, nsign + n) else none

/-- Go `strconv.special`: the special value a text starts with, and the number of
bytes it takes. -/
def special (s : List Char) : Option (F64 × Nat) :=
  match s with
  | [] => none
  | c :: cs =>
    if c = '+' ∨ c = '-' then specialInf cs (decide (c = '-')) 1
    else if c = 'i' ∨ c = 'I' then specialInf (c :: cs) false 0
    else if c = 'n' ∨ c = 'N' then
      if commonPrefixLenIgnoreCase (c :: cs) "nan".data = 3 then some (F64.nan, 3) else none
    else none

/-- Go `strconv.ParseFloat(s, 64)`. The special values are recognised as in
`strconv.special`; the conversion of numeric literals (`readFloat` and the
rounding to the nearest `float64`) is the parameter `atofNumber`. -/
def ParseFloat (atofNumber : String → Except GoError F64) (s : String) :
    Except GoError F64 :=
  match special s.data with
  | some (val, n) => if n ≠ s.data.length then .error .numSyntax else .ok val
  | none => atofNumber s

/-! ## The explicit-coordinate path of `main` -/

/-- The `Location` struct. -/
structure Location where
  /-- The `City` field -/
  City : String
  /-- The `Timezone` field -/
  Timezone : String
  /-- The `Latitude` field -/
  Latitude : F64
  /-- The `Longitude` field -/
  Longitude : F64
  deriving DecidableEq

/-- How a run of the program's code ends: with a value, with `log.Fatal` on an
error, or with the run-time panic `index out of range [index] with length
length`. -/
inductive Outcome (α : Type) where
  /-- Normal completion -/
  | ok (a : α)
  /-- Go `log.Fatal(err)` -/
  | fatal (e : GoError)
  /-- Go `panic: runtime error: index out of range` -/
  | indexPanic (index length : Nat)
  deriving DecidableEq

/-- The `else` branch of `if detect_location` in `main`: the `Location` built from
the `-city`, `-timezone` and `-coordinates` flags. -/
def mainCoordinates (atofNumber : String → Except GoError F64)
    (city timezone coordinates : String) : Outcome Location :=
  let lat_lon := Split coordinates ','
  match lat_lon.get? 0 with
  | none => .indexPanic 0 lat_lon.length
  | some s0 =>
    match ParseFloat atofNumber s0 with
    | .error e => .fatal e
    | .ok lat =>
      if F64.lt lat (.fin (-90)) || F64.gt lat (.fin 90) then .fatal .invalidLatitude
      else
        match lat_lon.get? 1 with
        | none => .indexPanic 1 lat_lon.length
        | some s1 =>
          match ParseFloat atofNumber s1 with
          | .error e => .fatal e
          | .ok lon =>
            if F64.lt lon (.fin (-180)) || F64.gt lon (.fin 180) then .fatal .invalidLongitude
            else .ok { City := city, Timezone := timezone, Latitude := lat, Longitude := lon }

/-! ## The `report` template -/

/-- The `Times` struct; `Timestamp` and `Duration` are string types. -/
structure Times where
  /-- The `sunrise` field -/
  Sunrise : String
  /-- The `sunset` field -/
  Sunset : String
  /-- The `solar_noon` field -/
  Solar_noon : String
  /-- The `day_length` field -/
  Day_length : String
  /-- The `civil_twilight_begin` field -/
  Civil_twilight_begin : String
  /-- The `civil_twilight_end` field -/
  Civil_twilight_end : String
  /-- The `nautical_twilight_begin` field -/
  Nautical_twilight_begin : String
  /-- The `nautical_twilight_end` field -/
  Nautical_twilight_end : String
  /-- The `astronomical_twilight_begin` field -/
  Astronomical_twilight_begin : String
  /-- The `astronomical_twilight_end` field -/
  Astronomical_twilight_end : String
  deriving DecidableEq

/-- The constant `report`. -/
def report : String :=
  "\n" ++
  "Sunrise                       \x7b\x7b.Sunrise\x7d\x7d\n" ++
  "Sunset                        \x7b\x7b.Sunset\x7d\x7d\n" ++
  "Solar noon                    \x7b\x7b.Solar_noon\x7d\x7d\n" ++
  "Day length                    \x7b\x7b.Day_length\x7d\x7d\n" ++
  "Twilight\n" ++
  "- Civil (beg)                 \x7b\x7b.Civil_twilight_begin\x7d\x7d\n" ++
  "- Civil (end)                 \x7b\x7b.Civil_twilight_end\x7d\x7d\n" ++
  "- Nautical (beg)              \x7b\x7b.Nautical_twilight_begin\x7d\x7d\n" ++
  "- Nautical (end)              \x7b\x7b.Nautical_twilight_end\x7d\x7d\n" ++
  "- Astronomical (beg)          \x7b\x7b.Astronomical_twilight_begin\x7d\x7d\n" ++
  "- Astronomical (end)          \x7b\x7b.Astronomical_twilight_end\x7d\x7d\n"

/-- A node of a parsed template: literal text, or the action that prints a field
of the data. -/
inductive Node where
  /-- Text copied to the output -/
  | text (s : String)
  /-- The action printing the field of that name -/
  | field (name : String)
  deriving DecidableEq

/-- The action between the delimiters: a dot and a field name. -/
def parseAction (body : List Char) : Except GoError Node :=
  match body with
  | '.' :: name =>
    if name ≠ [] ∧ name.all (fun c => c.isAlphanum || c = '_') then .ok (.field (String.mk name))
    else .error .templateParse
  | _ => .error .templateParse

/-- The part of `text/template` parsing that `report` uses: text up to a left
delimiter, then an action up to the right delimiter. `acc` holds, reversed,
the characters of the piece being read. -/
def parseTemplate : List Char → Bool → List Char → Except GoError (List Node)
  | [], inAction, acc =>
    if inAction then .error .templateParse
    else .ok (if acc = [] then [] else [.text (String.mk acc.reverse)])
  | [c], inAction, acc => parseTemplate [] inAction (c :: acc)
  | c :: d :: rest, inAction, acc =>
    if !inAction && decide (c = '\x7b') && decide (d = '\x7b') then
      match parseTemplate rest true [] with
      | .error e => .error e
      | .ok nodes => .ok (if acc = [] then nodes else .text (String.mk acc.reverse) :: nodes)
    else if inAction && decide (c = '\x7d') && decide (d = '\x7d') then
      match parseAction acc.reverse, parseTemplate rest false [] with
      | .ok node, .ok nodes => .ok (node :: nodes)
      | .error e, _ => .error e
      | _, .error e => .error e
    else parseTemplate (d :: rest) inAction (c :: acc)

/-- The nodes that `report` parses to. -/
def reportNodes : List Node :=
  [.text "\nSunrise                       ",
   .field "Sunrise",
   .text "\nSunset                        ",
   .field "Sunset",
   .text "\nSolar noon                    ",
   .field "Solar_noon",
   .text "\nDay length                    ",
   .field "Day_length",
   .text "\nTwilight\n- Civil (beg)                 ",
   .field "Civil_twilight_begin",
   .text "\n- Civil (end)                 ",
   .field "Civil_twilight_end",
   .text "\n- Nautical (beg)              ",
   .field "Nautical_twilight_begin",
   .text "\n- Nautical (end)              ",
   .field "Nautical_twilight_end",
   .text "\n- Astronomical (beg)          ",
   .field "Astronomical_twilight_begin",
   .text "\n- Astronomical (end)          ",
   .field "Astronomical_twilight_end",
   .text "\n"]

/-- Field lookup of `text/template` on a `Times` value; the field's string is
printed as it is. -/
def Times.evalField (t : Times) (name : String) : Except GoError String :=
  if name = "Sunrise" then .ok t.Sunrise
  else if name = "Sunset" then .ok t.Sunset
  else if name = "Solar_noon" then .ok t.Solar_noon
  else if name = "Day_length" then .ok t.Day_length
  else if name = "Civil_twilight_begin" then .ok t.Civil_twilight_begin
  else if name = "Civil_twilight_end" then .ok t.Civil_twilight_end
  else if name = "Nautical_twilight_begin" then .ok t.Nautical_twilight_begin
  else if name = "Nautical_twilight_end" then .ok t.Nautical_twilight_end
  else if name = "Astronomical_twilight_begin" then .ok t.Astronomical_twilight_begin
  else if name = "Astronomical_twilight_end" then .ok t.Astronomical_twilight_end
  else .error .templateExec

/-- Go `(*Template).Execute` on a `Times` value: the output written. -/
def Execute : List Node → Times → Except GoError String
  | [], _ => .ok ""
  | .text s :: nodes, t =>
    match Execute nodes t with
    | .error e => .error e
    | .ok out => .ok (s ++ out)
  | .field name :: nodes, t =>
    match t.evalField name, Execute nodes t with
    | .ok v, .ok out => .ok (v ++ out)
    | .error e, _ => .error e
    | _, .error e => .error e

/-- The last three statements of `main`:
`template.Must(template.New("report").Parse(report))` and `t.Execute(os.Stdout,
data.Times)`. -/
def renderReport (t : Times) : Except GoError String :=
  match parseTemplate report.data false [] with
  | .error e => .error e
  | .ok nodes => Execute nodes t

/-! ## Definitions that follow the specification's words

They are compared with the code's functions in the theorems below. -/

/-- A base-10 integer text, in the specification's words: an optional sign
followed by one or more decimal digits. -/
def isBase10Integer (t : List Char) : Bool :=
  match t with
  | [] => false
  | c :: cs =>
    let ds := if c = '+' ∨ c = '-' then cs else c :: cs
    !ds.isEmpty && ds.all isDigitChar

/-- The number a run of decimal digits writes. -/
def decimalValue (ds : List Char) : Nat :=
  ds.foldl (fun a c => a * 10 + digitVal c) 0

/-- The integer a base-10 integer text writes. -/
def base10Value (t : List Char) : Int :=
  match t with
  | [] => 0
  | c :: cs =>
    if c = '-' then -(decimalValue cs : Int)
    else if c = '+' then (decimalValue cs : Int)
    else (decimalValue (c :: cs) : Int)

/-- A timestamp text split into its fields, in the specification's pattern
`YYYY-MM-DDThh:mm:ss±hh:mm`: the characters of the year, month, day, hour,
minute and second, what stands between the seconds and the offset, the sign
and the characters of the offset. -/
structure TimestampText where
  /-- Year, first character -/
  y1 : Char
  /-- Year, second character -/
  y2 : Char
  /-- Year, third character -/
  y3 : Char
  /-- Year, fourth character -/
  y4 : Char
  /-- Month, first character -/
  mo1 : Char
  /-- Month, second character -/
  mo2 : Char
  /-- Day, first character -/
  d1 : Char
  /-- Day, second character -/
  d2 : Char
  /-- The characters of the hour -/
  hh : List Char
  /-- Minute, first character -/
  mi1 : Char
  /-- Minute, second character -/
  mi2 : Char
  /-- Second, first character -/
  s1 : Char
  /-- Second, second character -/
  s2 : Char
  /-- A fractional second with its leading comma or period, or nothing -/
  frac : List Char
  /-- The sign of the offset -/
  sg : Char
  /-- Offset hours, first character -/
  oh1 : Char
  /-- Offset hours, second character -/
  oh2 : Char
  /-- Offset minutes, first character -/
  om1 : Char
  /-- Offset minutes, second character -/
  om2 : Char

/-- The text the fields spell. -/
def TimestampText.text (f : TimestampText) : List Char :=
  [f.y1, f.y2, f.y3, f.y4, '-', f.mo1, f.mo2, '-', f.d1, f.d2, 'T'] ++ f.hh
    ++ [':', f.mi1, f.mi2, ':', f.s1, f.s2] ++ f.frac
    ++ [f.sg, f.oh1, f.oh2, ':', f.om1, f.om2]

/-- The time of day as written: hour, minute and second with their colons. -/
def TimestampText.timeOfDay (f : TimestampText) : List Char :=
  f.hh ++ [':', f.mi1, f.mi2, ':', f.s1, f.s2]

/-- No fractional second, or a comma or period followed by one or more digits. -/
def fractionOK (frac : List Char) : Bool :=
  match frac with
  | [] => true
  | p :: ds => commaOrPeriod p && !ds.isEmpty && ds.all isDigitChar

/-- The fields are digits where digits are asked for, the hour has one or two
of them, and the sign is `+` or `-`. -/
def TimestampText.wellFormed (f : TimestampText) : Bool :=
  [f.y1, f.y2, f.y3, f.y4, f.mo1, f.mo2, f.d1, f.d2, f.mi1, f.mi2, f.s1, f.s2,
      f.oh1, f.oh2, f.om1, f.om2].all isDigitChar
    && f.hh.all isDigitChar && (decide (f.hh.length = 1) || decide (f.hh.length = 2))
    && fractionOK f.frac && (decide (f.sg = '+') || decide (f.sg = '-'))

/-- The fields are in range: month 1 to 12, a day that the month of that year
has, hour below 24, minute and second below 60, offset hours up to 24 and
offset minutes up to 60. -/
def TimestampText.inRange (f : TimestampText) : Bool :=
  decide (1 ≤ decimalValue [f.mo1, f.mo2]) && decide (decimalValue [f.mo1, f.mo2] ≤ 12)
    && decide (1 ≤ decimalValue [f.d1, f.d2])
    && decide ((decimalValue [f.d1, f.d2] : Int)
        ≤ daysIn (decimalValue [f.mo1, f.mo2]) (decimalValue [f.y1, f.y2, f.y3, f.y4]))
    && decide (decimalValue f.hh < 24)
    && decide (decimalValue [f.mi1, f.mi2] < 60)
    && decide (decimalValue [f.s1, f.s2] < 60)
    && decide (decimalValue [f.oh1, f.oh2] ≤ 24)
    && decide (decimalValue [f.om1, f.om2] ≤ 60)

/-- The pattern of the specification to the letter: a two-digit hour and no
fractional second. -/
def TimestampText.strict (f : TimestampText) : Bool :=
  decide (f.hh.length = 2) && decide (f.frac = [])

/-- A value lies in the closed interval `[lo, hi]`, in the specification's words:
a finite number between the bounds, both included. -/
def F64.within (lo hi : ℚ) (x : F64) : Bool :=
  match x with
  | .fin q => decide (lo ≤ q) && decide (q ≤ hi)
  | _ => false

/-! ## Lemmas: trimming -/

theorem trimLeftByte_replicate_append (k : Nat) (c : Char) (t : List Char) :
    trimLeftByte (List.replicate k c ++ t) c = trimLeftByte t c := by
  induction k with
  | zero => simp
  | succ k ih => simp [List.replicate_succ, trimLeftByte, ih]

theorem trimLeftByte_replicate (k : Nat) (c : Char) :
    trimLeftByte (List.replicate k c) c = [] := by
  have h := trimLeftByte_replicate_append k c []
  simpa [trimLeftByte] using h

theorem trimLeftByte_of_forall_ne (a t : List Char) (c : Char) (hne : a ≠ [])
    (h : ∀ x ∈ a, x ≠ c) : trimLeftByte (a ++ t) c = a ++ t := by
  cases a with
  | nil => exact absurd rfl hne
  | cons x xs =>
    have hx : x ≠ c := h x (by simp)
    simp [trimLeftByte, hx]

/-- Trimming a text that holds no quote and is wrapped in any number of quotes
gives the text back. -/
theorem trim_wrapped (k j : Nat) (c : Char) (body : List Char)
    (h : ∀ x ∈ body, x ≠ c) :
    trimLeftByte (trimRightByte (List.replicate k c ++ body ++ List.replicate j c) c) c
      = body := by
  unfold trimRightByte
  by_cases hb : body = []
  · subst hb
    simp only [List.append_nil, ← List.replicate_add, List.reverse_replicate,
      trimLeftByte_replicate, List.reverse_nil, trimLeftByte]
  · have hrev : ∀ x ∈ body.reverse, x ≠ c := fun x hx => h x (List.mem_reverse.mp hx)
    have hrne : body.reverse ≠ [] := by simpa using hb
    rw [List.reverse_append, List.reverse_append, List.reverse_replicate,
      List.reverse_replicate, trimLeftByte_replicate_append,
      trimLeftByte_of_forall_ne _ _ _ hrne hrev, List.reverse_append, List.reverse_reverse,
      List.reverse_replicate, trimLeftByte_replicate_append]
    have h2 := trimLeftByte_of_forall_ne body [] c hb h
    simpa using h2

theorem Trim_wrapped (k j : Nat) (body : List Char) (h : ∀ x ∈ body, x ≠ '"') :
    Trim ⟨List.replicate k '"' ++ body ++ List.replicate j '"'⟩ '"' = ⟨body⟩ := by
  unfold Trim
  rw [trim_wrapped k j '"' body h]

theorem Trim_plain (body : List Char) (h : ∀ x ∈ body, x ≠ '"') :
    Trim ⟨body⟩ '"' = ⟨body⟩ := by
  have := Trim_wrapped 0 0 body h
  simpa using this

/-! ## Lemmas: decimal text -/

theorem isDigitChar_digitChar (k : Nat) (hk : k < 10) :
    isDigitChar (Nat.digitChar k) = true := by
  interval_cases k <;> decide

theorem digitVal_digitChar (k : Nat) (hk : k < 10) : digitVal (Nat.digitChar k) = k := by
  interval_cases k <;> decide

theorem toDigitsCore_digits (fuel : Nat) : ∀ (n : Nat) (ds : List Char),
    ∀ x ∈ Nat.toDigitsCore 10 fuel n ds, isDigitChar x = true ∨ x ∈ ds := by
  induction fuel with
  | zero => intro n ds x hx; right; simpa [Nat.toDigitsCore] using hx
  | succ fuel ih =>
    intro n ds x hx
    simp only [Nat.toDigitsCore] at hx
    split at hx
    · rcases List.mem_cons.mp hx with h | h
      · left; rw [h]; exact isDigitChar_digitChar _ (Nat.mod_lt _ (by norm_num))
      · right; exact h
    · rcases ih _ _ x hx with h | h
      · left; exact h
      · rcases List.mem_cons.mp h with h | h
        · left; rw [h]; exact isDigitChar_digitChar _ (Nat.mod_lt _ (by norm_num))
        · right; exact h

theorem toDigits_digits (n : Nat) : ∀ x ∈ Nat.toDigits 10 n, isDigitChar x = true := by
  intro x hx
  rcases toDigitsCore_digits _ _ _ x hx with h | h
  · exact h
  · simp at h

theorem parseUintLoop_toDigitsCore (fuel : Nat) : ∀ (n : Nat) (ds : List Char),
    n < fuel → n < 2 ^ 64 →
    parseUintLoop (Nat.toDigitsCore 10 fuel n ds) 0 = parseUintLoop ds n := by
  induction fuel with
  | zero => intro n ds h; omega
  | succ fuel ih =>
    intro n ds hf hn
    have hd := isDigitChar_digitChar (n % 10) (Nat.mod_lt _ (by norm_num))
    have hv := digitVal_digitChar (n % 10) (Nat.mod_lt _ (by norm_num))
    simp only [Nat.toDigitsCore]
    split
    · rename_i h0
      have : n % 10 = n := by omega
      simp only [parseUintLoop, hd, hv, if_true]
      rw [if_neg (by omega)]
      simp [this]
    · rename_i h0
      rw [ih (n / 10) _ (by omega) (by omega)]
      simp only [parseUintLoop, hd, hv, if_true]
      have : n / 10 * 10 + n % 10 = n := by omega
      rw [if_neg (by omega), this]

theorem ParseUint_toDigits (n : Nat) (hn : n < 2 ^ 64) :
    ParseUint (Nat.toDigits 10 n) = .ok n := by
  have h := parseUintLoop_toDigitsCore (n + 1) n [] (by omega) hn
  have h2 : parseUintLoop (Nat.toDigits 10 n) 0 = .ok n := by
    simpa [Nat.toDigits, parseUintLoop] using h
  unfold ParseUint
  split
  · rename_i hnil
    rw [hnil] at h2
    simp only [parseUintLoop, Except.ok.injEq] at h2
    subst h2
    exact absurd hnil (by decide)
  · exact h2

theorem digit_ne_special (c : Char) (h : isDigitChar c = true) :
    c ≠ '+' ∧ c ≠ '-' ∧ c ≠ '"' ∧ c ≠ 'n' := by
  refine ⟨?_, ?_, ?_, ?_⟩ <;> (intro hc; subst hc; exact absurd h (by decide))

theorem ParseInt_toDigits (n : Nat) (hn : n < 2 ^ 63) :
    ParseInt (Nat.toDigits 10 n) = .ok (n : Int) := by
  have hu := ParseUint_toDigits n (by omega)
  have hd := toDigits_digits n
  cases hl : Nat.toDigits 10 n with
  | nil => rw [hl] at hu; simp [ParseUint] at hu
  | cons c cs =>
    rw [hl] at hu hd
    have hc := digit_ne_special c (hd c (by simp))
    simp [ParseInt, hc.1, hc.2.1, hu, intSize]
    omega

theorem ParseInt_neg_toDigits (n : Nat) (hn : n ≤ 2 ^ 63) :
    ParseInt ('-' :: Nat.toDigits 10 n) = .ok (-(n : Int)) := by
  have hu := ParseUint_toDigits n (by omega)
  simp [ParseInt, hu, intSize]
  omega

theorem fmtD_data_ofNat (n : Nat) : (fmtD (n : Int)).data = Nat.toDigits 10 n := rfl

theorem fmtD_data_negSucc (n : Nat) :
    (fmtD (Int.negSucc n)).data = '-' :: Nat.toDigits 10 (n + 1) := rfl

/-- The decimal text of an integer that fits in 64 bits parses back to it. -/
theorem Atoi_fmtD (s : Int) (h1 : -(2 ^ 63) ≤ s) (h2 : s < 2 ^ 63) :
    Atoi (fmtD s) = .ok s := by
  unfold Atoi
  cases s with
  | ofNat n =>
    rw [Int.ofNat_eq_coe] at h2 ⊢
    rw [fmtD_data_ofNat]
    exact ParseInt_toDigits n (by omega)
  | negSucc n =>
    rw [Int.negSucc_eq] at h1
    rw [fmtD_data_negSucc, ParseInt_neg_toDigits (n + 1) (by omega)]
    rfl

/-- The decimal text of an integer holds no double quote. -/
theorem fmtD_no_quote (s : Int) : ∀ x ∈ (fmtD s).data, x ≠ '"' := by
  intro x hx
  cases s with
  | ofNat n =>
    rw [Int.ofNat_eq_coe, fmtD_data_ofNat] at hx
    exact (digit_ne_special x (toDigits_digits n x hx)).2.2.1
  | negSucc n =>
    rw [fmtD_data_negSucc] at hx
    rcases List.mem_cons.mp hx with h | h
    · rw [h]; decide
    · exact (digit_ne_special x (toDigits_digits _ x h)).2.2.1

/-- The decimal text of an integer is not the word `null`. -/
theorem fmtD_ne_null (s : Int) : fmtD s ≠ "null" := by
  intro h
  have hd : (fmtD s).data = ['n', 'u', 'l', 'l'] := by rw [h]
  cases s with
  | ofNat n =>
    rw [Int.ofNat_eq_coe, fmtD_data_ofNat] at hd
    have := toDigits_digits n 'n' (by rw [hd]; simp)
    exact absurd this (by decide)
  | negSucc n =>
    rw [fmtD_data_negSucc] at hd
    simp at hd

/-! ## Lemmas: the arithmetic of durations -/

theorem wrap64_eq (x : Int) (h1 : -9223372036854775808 ≤ x) (h2 : x ≤ 9223372036854775807) :
    wrap64 x = x := by
  unfold wrap64
  omega

theorem tdiv_cases (x y : Int) (hy : 0 < y) :
    Int.tdiv x y = if 0 ≤ x then x / y else -((-x) / y) := by
  split
  · exact Int.tdiv_eq_ediv (by assumption) (by omega)
  · have h : x = -(-x) := by omega
    rw [h, Int.neg_tdiv, Int.tdiv_eq_ediv (by omega) (by omega)]
    simp

/-- Rounding a whole number of seconds to the nearest second changes nothing. -/
theorem Round_seconds (s : Int) (h1 : -9223372036 ≤ s) (h2 : s ≤ 9223372036) :
    Round (s * Second) Second = s * Second := by
  have hr : Int.tmod (s * Second) Second = 0 := by
    rw [Int.tmod_def, tdiv_cases _ _ (by unfold Second; omega)]
    unfold Second
    split <;> omega
  have hl : lessThanHalf 0 Second = true := by decide
  unfold Round
  rw [if_neg (by unfold Second; omega)]
  simp only [hr]
  have hw : wrap64 (-0) = 0 := by decide
  rw [hw, hl]
  simp only [if_true, Int.add_zero, Int.sub_zero]
  rw [wrap64_eq _ (by unfold Second; omega) (by unfold Second; omega)]
  simp

/-- The three numbers of `Duration.UnmarshalJSON`, in closed form, for every
count of seconds whose nanosecond count fits in 64 bits. -/
theorem durationParts_eq (s : Int) (h1 : -9223372036 ≤ s) (h2 : s ≤ 9223372036) :
    durationParts s =
      (Int.tdiv s 3600,
       Int.tdiv (s - 3600 * Int.tdiv s 3600) 60,
       s - 3600 * Int.tdiv s 3600 - 60 * Int.tdiv (s - 3600 * Int.tdiv s 3600) 60) := by
  unfold durationParts
  simp only []
  rw [wrap64_eq (s * Second) (by unfold Second; omega) (by unfold Second; omega),
    Round_seconds s h1 h2]
  have hH : Int.tdiv (s * Second) Hour = Int.tdiv s 3600 := by
    rw [tdiv_cases _ _ (by unfold Hour Minute Second; omega), tdiv_cases _ _ (by omega)]
    unfold Hour Minute Second
    split <;> split <;> omega
  rw [hH]
  have hHb : -2562047 ≤ Int.tdiv s 3600 ∧ Int.tdiv s 3600 ≤ 2562047 := by
    rw [tdiv_cases _ _ (by omega)]
    split <;> omega
  have hrem : wrap64 (s * Second - wrap64 (Int.tdiv s 3600 * Hour))
      = (s - 3600 * Int.tdiv s 3600) * Second := by
    rw [wrap64_eq (Int.tdiv s 3600 * Hour) (by unfold Hour Minute Second; omega)
      (by unfold Hour Minute Second; omega)]
    have hb : -3600 < s - 3600 * Int.tdiv s 3600 ∧ s - 3600 * Int.tdiv s 3600 < 3600 := by
      rw [tdiv_cases _ _ (by omega)]
      split <;> omega
    rw [wrap64_eq _ (by unfold Hour Minute Second; omega) (by unfold Hour Minute Second; omega)]
    unfold Hour Minute Second
    omega
  rw [hrem]
  generalize hq : s - 3600 * Int.tdiv s 3600 = q
  have hqb : -3600 < q ∧ q < 3600 := by
    rw [← hq, tdiv_cases _ _ (by omega)]
    split <;> omega
  have hM : Int.tdiv (q * Second) Minute = Int.tdiv q 60 := by
    rw [tdiv_cases _ _ (by unfold Minute Second; omega), tdiv_cases _ _ (by omega)]
    unfold Minute Second
    split <;> split <;> omega
  rw [hM]
  have hMb : -60 ≤ Int.tdiv q 60 ∧ Int.tdiv q 60 ≤ 60 := by
    rw [tdiv_cases _ _ (by omega)]
    split <;> omega
  have hrem2 : wrap64 (q * Second - wrap64 (Int.tdiv q 60 * Minute))
      = (q - 60 * Int.tdiv q 60) * Second := by
    rw [wrap64_eq (Int.tdiv q 60 * Minute) (by unfold Minute Second; omega)
      (by unfold Minute Second; omega)]
    rw [wrap64_eq _ (by unfold Minute Second; omega) (by unfold Minute Second; omega)]
    unfold Minute Second
    omega
  rw [hrem2]
  have hS : Int.tdiv ((q - 60 * Int.tdiv q 60) * Second) Second = q - 60 * Int.tdiv q 60 := by
    rw [tdiv_cases _ _ (by unfold Second; omega)]
    unfold Second
    split <;> omega
  rw [hS]


/-- Decoding the decimal text of a count of seconds, wrapped in any number of
quotes, prints the three numbers of the closed form. -/
theorem Duration_decode_fmtD (du : String) (k j : Nat) (s : Int)
    (h1 : -9223372036 ≤ s) (h2 : s ≤ 9223372036) :
    Duration.UnmarshalJSON du
        ⟨List.replicate k '"' ++ (fmtD s).data ++ List.replicate j '"'⟩
      = .ok (sprintfHMS (Int.tdiv s 3600) (Int.tdiv (s - 3600 * Int.tdiv s 3600) 60)
          (s - 3600 * Int.tdiv s 3600 - 60 * Int.tdiv (s - 3600 * Int.tdiv s 3600) 60)) := by
  unfold Duration.UnmarshalJSON
  have ht : Trim ⟨List.replicate k '"' ++ (fmtD s).data ++ List.replicate j '"'⟩ '"'
      = fmtD s := Trim_wrapped k j _ (fmtD_no_quote s)
  simp only [ht]
  rw [if_neg (fmtD_ne_null s), Atoi_fmtD s (by omega) (by omega)]
  simp only [durationParts_eq s h1 h2]

/-! ## Lemmas: which texts `strconv.Atoi` accepts -/

theorem foldl_digits_ge (ds : List Char) : ∀ acc : Nat,
    acc ≤ ds.foldl (fun a c => a * 10 + digitVal c) acc := by
  induction ds with
  | nil => intro acc; simp
  | cons c cs ih =>
    intro acc
    simp only [List.foldl_cons]
    exact le_trans (by omega) (ih _)

theorem parseUintLoop_ok_iff (ds : List Char) : ∀ (acc n : Nat), acc < 2 ^ 64 →
    (parseUintLoop ds acc = .ok n ↔
      ds.all isDigitChar = true ∧ ds.foldl (fun a c => a * 10 + digitVal c) acc = n
        ∧ n < 2 ^ 64) := by
  induction ds with
  | nil =>
    intro acc n hacc
    simp only [parseUintLoop, Except.ok.injEq, List.all_nil, List.foldl_nil, true_and]
    constructor
    · intro h; subst h; exact ⟨rfl, hacc⟩
    · intro h; exact h.1
  | cons c cs ih =>
    intro acc n hacc
    simp only [parseUintLoop, List.all_cons, List.foldl_cons, Bool.and_eq_true]
    by_cases hc : isDigitChar c = true
    · simp only [hc, if_true, true_and]
      by_cases hov : acc * 10 + digitVal c ≥ 2 ^ 64
      · rw [if_pos hov]
        constructor
        · intro h; cases h
        · intro h
          have := foldl_digits_ge cs (acc * 10 + digitVal c)
          omega
      · rw [if_neg hov]
        exact ih _ n (by omega)
    · simp [hc]

theorem ParseUint_ok_iff (ds : List Char) (n : Nat) :
    ParseUint ds = .ok n ↔
      ds ≠ [] ∧ ds.all isDigitChar = true ∧ decimalValue ds = n ∧ n < 2 ^ 64 := by
  cases ds with
  | nil => simp [ParseUint]
  | cons c cs =>
    simp only [ParseUint, ne_eq, reduceCtorEq, not_false_eq_true, true_and, decimalValue]
    exact parseUintLoop_ok_iff (c :: cs) 0 n (by norm_num)

theorem ParseUint_cases (ds : List Char) :
    (∃ e, ParseUint ds = .error e) ∨ (∃ n, ParseUint ds = .ok n) := by
  cases h : ParseUint ds with
  | error e => exact Or.inl ⟨e, rfl⟩
  | ok n => exact Or.inr ⟨n, rfl⟩

theorem base10Value_cons (c : Char) (cs : List Char) :
    base10Value (c :: cs) =
      if c = '-' then -(decimalValue (if c = '+' ∨ c = '-' then cs else c :: cs) : Int)
      else (decimalValue (if c = '+' ∨ c = '-' then cs else c :: cs) : Int) := by
  by_cases hm : c = '-'
  · simp [base10Value, hm]
  · by_cases hp : c = '+'
    · simp [base10Value, hp]
    · simp [base10Value, hm, hp]

/-- Go `strconv.ParseInt` accepts exactly the base-10 integer texts whose value fits
in 64 bits, and returns that value. -/
theorem ParseInt_ok_iff (t : List Char) (n : Int) :
    ParseInt t = .ok n ↔
      isBase10Integer t = true ∧ base10Value t = n ∧ -(2 ^ 63) ≤ n ∧ n < 2 ^ 63 := by
  cases t with
  | nil => simp [ParseInt, isBase10Integer]
  | cons c cs =>
    rw [base10Value_cons]
    simp only [ParseInt, isBase10Integer, intSize]
    generalize (if c = '+' ∨ c = '-' then cs else c :: cs) = body
    rcases ParseUint_cases body with ⟨e, he⟩ | ⟨u, hu⟩
    · rw [he]
      simp only [reduceCtorEq, false_iff]
      rintro ⟨hd, hv, hlo, hhi⟩
      have hd2 : body ≠ [] ∧ body.all isDigitChar = true := by
        simpa [List.isEmpty_iff] using hd
      have hno : ¬ decimalValue body < 2 ^ 64 := by
        intro hlt
        have := (ParseUint_ok_iff body _).mpr ⟨hd2.1, hd2.2, rfl, hlt⟩
        rw [he] at this
        cases this
      split at hv <;> omega
    · rw [hu]
      have hs := (ParseUint_ok_iff body u).mp hu
      have hd : (!body.isEmpty && body.all isDigitChar) = true := by
        simp [List.isEmpty_iff, hs.1, hs.2.1]
      simp only [hd, true_and, hs.2.2.1]
      by_cases hm : c = '-'
      · simp only [hm, decide_True, Bool.not_true, Bool.false_and, Bool.true_and, if_true,
          decide_eq_true_eq, Bool.false_eq_true, if_false]
        split
        · simp only [reduceCtorEq, false_iff]; omega
        · simp only [Except.ok.injEq]
          constructor
          · intro h; subst h; omega
          · intro h; exact h.1
      · simp only [hm, decide_False, Bool.not_false, Bool.false_and, Bool.true_and, if_false,
          decide_eq_true_eq, Bool.false_eq_true]
        split
        · simp only [reduceCtorEq, false_iff]; omega
        · simp only [Except.ok.injEq]
          constructor
          · intro h; subst h; omega
          · intro h; exact h.1

/-! ## Lemmas: digits -/

theorem isDigitChar_iff (c : Char) : isDigitChar c = true ↔ 48 ≤ c.toNat ∧ c.toNat ≤ 57 := by
  unfold isDigitChar
  simp only [Bool.and_eq_true, decide_eq_true_eq]
  rw [Char.le_def, Char.le_def]
  show (('0' : Char).val.toNat ≤ c.val.toNat ∧ c.val.toNat ≤ ('9' : Char).val.toNat) ↔ _
  rfl

theorem digit_cases (c : Char) (h : isDigitChar c = true) :
    c = '0' ∨ c = '1' ∨ c = '2' ∨ c = '3' ∨ c = '4' ∨ c = '5' ∨ c = '6' ∨ c = '7'
      ∨ c = '8' ∨ c = '9' := by
  rw [isDigitChar_iff] at h
  have hc : c = Char.ofNat c.toNat := (Char.ofNat_toNat c).symm
  generalize c.toNat = n at h hc
  obtain ⟨h1, h2⟩ := h
  subst hc
  interval_cases n <;> decide

theorem digitVal_le (c : Char) (h : isDigitChar c = true) : digitVal c ≤ 9 := by
  rcases digit_cases c h with h | h | h | h | h | h | h | h | h | h <;> subst h <;> decide

theorem digitChar_digitVal (c : Char) (h : isDigitChar c = true) :
    Nat.digitChar (digitVal c) = c := by
  rcases digit_cases c h with h | h | h | h | h | h | h | h | h | h <;> subst h <;> decide

theorem digit_not_punct (c : Char) (h : isDigitChar c = true) :
    c ≠ ':' ∧ c ≠ '.' ∧ c ≠ ',' ∧ c ≠ 'T' := by
  refine ⟨?_, ?_, ?_, ?_⟩ <;> (intro hc; subst hc; exact absurd h (by decide))

/-! ## Lemmas: the steps of `time.Parse` -/

theorem bind_ok_iff {ε α β : Type} (x : Except ε α) (f : α → Except ε β) (b : β) :
    (x >>= f) = .ok b ↔ ∃ a, x = .ok a ∧ f a = .ok b := by
  cases x with
  | error e => simp [bind, Except.bind]
  | ok a => simp [bind, Except.bind]

theorem failIf_ok_iff (c : Bool) (e : GoError) (u : Unit) :
    failIf c e = .ok u ↔ c = false := by
  unfold failIf
  cases c <;> simp

theorem skip_one_ok_iff (value rest : List Char) (c : Char) :
    skip value [c] = .ok rest ↔ value = c :: rest := by
  cases value with
  | nil => simp [skip]
  | cons v vs =>
    simp only [skip, List.cons.injEq]
    by_cases h : v = c
    · simp [h, skip]
    · simp [h]

theorem isDigit_zero_cons (c : Char) (cs : List Char) :
    isDigit (c :: cs) 0 = isDigitChar c := rfl

theorem isDigit_one_cons (c : Char) (cs : List Char) :
    isDigit (c :: cs) 1 = isDigit cs 0 := rfl

theorem isDigit_nil (i : Nat) : isDigit [] i = false := by
  simp [isDigit]

theorem getnum_two_digits (a b : Char) (rest : List Char) (fixed : Bool)
    (ha : isDigitChar a = true) (hb : isDigitChar b = true) :
    getnum (a :: b :: rest) fixed = .ok ((decimalValue [a, b] : Int), rest) := by
  simp [getnum, isDigit_zero_cons, isDigit_one_cons, ha, hb, decimalValue]

theorem getnum_one_digit (a : Char) (rest : List Char)
    (ha : isDigitChar a = true) (hb : isDigit rest 0 = false) :
    getnum (a :: rest) false = .ok ((decimalValue [a] : Int), rest) := by
  simp [getnum, isDigit_zero_cons, isDigit_one_cons, ha, hb, decimalValue]

theorem getnum_fixed_ok_iff (value rest : List Char) (n : Int) :
    getnum value true = .ok (n, rest) ↔
      ∃ a b, value = a :: b :: rest ∧ isDigitChar a = true ∧ isDigitChar b = true
        ∧ n = (decimalValue [a, b] : Int) := by
  constructor
  · intro h
    rcases value with _ | ⟨a, _ | ⟨b, tl⟩⟩
    · simp [getnum, isDigit_nil] at h
    · by_cases ha : isDigitChar a = true <;>
        simp [getnum, isDigit_zero_cons, isDigit_one_cons, isDigit_nil, ha] at h
    · by_cases ha : isDigitChar a = true
      · by_cases hb : isDigitChar b = true
        · rw [getnum_two_digits a b tl true ha hb] at h
          simp only [Except.ok.injEq, Prod.mk.injEq] at h
          exact ⟨a, b, by rw [h.2], ha, hb, h.1.symm⟩
        · simp [getnum, isDigit_zero_cons, isDigit_one_cons, ha, hb] at h
      · simp [getnum, isDigit_zero_cons, isDigit_one_cons, ha] at h
  · rintro ⟨a, b, rfl, ha, hb, rfl⟩
    exact getnum_two_digits a b rest true ha hb

theorem getnum_free_ok_iff (value rest : List Char) (n : Int) :
    getnum value false = .ok (n, rest) ↔
      (∃ a b, value = a :: b :: rest ∧ isDigitChar a = true ∧ isDigitChar b = true
        ∧ n = (decimalValue [a, b] : Int)) ∨
      (∃ a, value = a :: rest ∧ isDigitChar a = true ∧ isDigit rest 0 = false
        ∧ n = (decimalValue [a] : Int)) := by
  constructor
  · intro h
    rcases value with _ | ⟨a, tl⟩
    · simp [getnum, isDigit_nil] at h
    · by_cases ha : isDigitChar a = true
      · by_cases hb : isDigit tl 0 = true
        · rcases tl with _ | ⟨b, tl2⟩
          · simp [isDigit_nil] at hb
          · rw [isDigit_zero_cons] at hb
            rw [getnum_two_digits a b tl2 false ha hb] at h
            simp only [Except.ok.injEq, Prod.mk.injEq] at h
            exact Or.inl ⟨a, b, by rw [h.2], ha, hb, h.1.symm⟩
        · have hb2 : isDigit tl 0 = false := by simpa using hb
          rw [getnum_one_digit a tl ha hb2] at h
          simp only [Except.ok.injEq, Prod.mk.injEq] at h
          right
          refine ⟨a, by rw [h.2], ha, ?_, h.1.symm⟩
          rw [← h.2]; exact hb2
      · simp [getnum, isDigit_zero_cons, ha] at h
  · rintro (⟨a, b, rfl, ha, hb, rfl⟩ | ⟨a, rfl, ha, hb, rfl⟩)
    · exact getnum_two_digits a b rest false ha hb
    · exact getnum_one_digit a rest ha hb

theorem pure_eq_ok {ε α : Type} (a : α) : (pure a : Except ε α) = .ok a := rfl

theorem leadingInt_all_digits (l : List Char) : ∀ (x q : Nat) (rem : List Char),
    leadingInt l x = .ok (q, rem) → rem = [] → l.all isDigitChar = true := by
  induction l with
  | nil => intro x q rem _ _; rfl
  | cons c cs ih =>
    intro x q rem h hrem
    unfold leadingInt at h
    by_cases hc : isDigitChar c = true
    · simp only [hc, Bool.not_true, Bool.false_eq_true, if_false] at h
      split at h
      · cases h
      · split at h
        · cases h
        · simp only [List.all_cons, hc, Bool.true_and]
          exact ih _ q rem h hrem
    · simp only [hc, Bool.not_false, if_true, Except.ok.injEq, Prod.mk.injEq] at h
      rw [← h.2] at hrem
      cases hrem

theorem foldl_digits_lt (l : List Char) : ∀ (x m : Nat), l.all isDigitChar = true →
    x < 10 ^ m → l.foldl (fun a c => a * 10 + digitVal c) x < 10 ^ (m + l.length) := by
  induction l with
  | nil => intro x m _ hx; simpa using hx
  | cons c cs ih =>
    intro x m hl hx
    simp only [List.all_cons, Bool.and_eq_true] at hl
    have hd := digitVal_le c hl.1
    have hp : 10 ^ (m + 1) = 10 ^ m * 10 := pow_succ 10 m
    have := ih (x * 10 + digitVal c) (m + 1) hl.2 (by omega)
    simp only [List.foldl_cons, List.length_cons]
    have he : m + (cs.length + 1) = m + 1 + cs.length := by omega
    rw [he]
    exact this

theorem leadingInt_digits (l : List Char) : ∀ (x m : Nat), l.all isDigitChar = true →
    x < 10 ^ m → m + l.length ≤ 17 →
    leadingInt l x = .ok (l.foldl (fun a c => a * 10 + digitVal c) x, []) := by
  induction l with
  | nil => intro x m _ _ _; rfl
  | cons c cs ih =>
    intro x m hl hx hlen
    simp only [List.all_cons, Bool.and_eq_true] at hl
    simp only [List.length_cons] at hlen
    have hd := digitVal_le c hl.1
    have hp : 10 ^ (m + 1) = 10 ^ m * 10 := pow_succ 10 m
    have h16 : 10 ^ m ≤ 10 ^ 16 := Nat.pow_le_pow_right (by norm_num) (by omega)
    norm_num at h16
    unfold leadingInt
    simp only [hl.1, Bool.not_true, Bool.false_eq_true, if_false, List.foldl_cons]
    rw [if_neg (by norm_num; omega), if_neg (by norm_num; omega)]
    exact ih _ (m + 1) hl.2 (by omega) (by omega)

theorem atoi_of_digit_head (c : Char) (cs : List Char) (hc : isDigitChar c = true) :
    atoi (c :: cs) =
      match leadingInt (c :: cs) 0 with
      | .error e => .error e
      | .ok (q, rem) => if rem ≠ [] then .error .timeParse else .ok (q : Int) := by
  have hs := digit_ne_special c hc
  simp [atoi, hs.1, hs.2.1]

theorem atoi_digits (l : List Char) (hne : l ≠ []) (hd : l.all isDigitChar = true)
    (hlen : l.length ≤ 17) : atoi l = .ok (decimalValue l : Int) := by
  cases l with
  | nil => exact absurd rfl hne
  | cons c cs =>
    have hc : isDigitChar c = true := by
      simp only [List.all_cons, Bool.and_eq_true] at hd; exact hd.1
    rw [atoi_of_digit_head c cs hc, leadingInt_digits (c :: cs) 0 0 hd (by norm_num) (by omega)]
    simp [decimalValue]

theorem atoi_ok_all_digits (c : Char) (cs : List Char) (n : Int)
    (hc : isDigitChar c = true) (h : atoi (c :: cs) = .ok n) :
    (c :: cs).all isDigitChar = true := by
  rw [atoi_of_digit_head c cs hc] at h
  cases hl : leadingInt (c :: cs) 0 with
  | error e => rw [hl] at h; cases h
  | ok r =>
    obtain ⟨q, rem⟩ := r
    rw [hl] at h
    by_cases hrem : rem = []
    · exact leadingInt_all_digits _ _ _ _ hl hrem
    · simp [hrem] at h

theorem parseLongYear_ok_iff (value rest : List Char) (y : Int) :
    parseLongYear value = .ok (y, rest) ↔
      ∃ y1 y2 y3 y4, value = y1 :: y2 :: y3 :: y4 :: rest ∧
        [y1, y2, y3, y4].all isDigitChar = true ∧
        y = (decimalValue [y1, y2, y3, y4] : Int) := by
  constructor
  · intro h
    simp only [parseLongYear, bind_ok_iff, failIf_ok_iff, pure_eq_ok, Except.ok.injEq,
      Prod.mk.injEq] at h
    obtain ⟨_, hguard, yr, hy, hyr, hrest⟩ := h
    rcases value with _ | ⟨y1, _ | ⟨y2, _ | ⟨y3, _ | ⟨y4, tl⟩⟩⟩⟩
    · simp at hguard
    · simp at hguard
    · simp at hguard
    · simp at hguard
    · simp only [List.length_cons, isDigit_zero_cons, Bool.or_eq_false_iff,
        Bool.not_eq_false'] at hguard
      simp only [List.take_succ_cons, List.take_zero, List.drop_succ_cons, List.drop_zero] at hy hrest
      have hall := atoi_ok_all_digits y1 [y2, y3, y4] yr hguard.2 hy
      rw [atoi_digits _ (by simp) hall (by simp)] at hy
      simp only [Except.ok.injEq] at hy
      exact ⟨y1, y2, y3, y4, by rw [hrest], hall, by rw [← hyr, ← hy]⟩
  · rintro ⟨y1, y2, y3, y4, rfl, hall, rfl⟩
    have hy1 : isDigitChar y1 = true := by
      simp only [List.all_cons, Bool.and_eq_true] at hall; exact hall.1
    simp only [parseLongYear, bind_ok_iff, failIf_ok_iff, pure_eq_ok, Except.ok.injEq,
      Prod.mk.injEq]
    refine ⟨(), ?_, _, ?_, rfl, ?_⟩
    · simp [isDigit_zero_cons, hy1]
    · simp only [List.take_succ_cons, List.take_zero]
      exact atoi_digits _ (by simp) hall (by simp)
    · simp

theorem parseDateChunks_ok_iff (value rest : List Char) (y mo d : Int) :
    parseDateChunks value = .ok (y, mo, d, rest) ↔
      ∃ y1 y2 y3 y4 mo1 mo2 d1 d2,
        value = y1 :: y2 :: y3 :: y4 :: '-' :: mo1 :: mo2 :: '-' :: d1 :: d2 :: 'T' :: rest ∧
        [y1, y2, y3, y4, mo1, mo2, d1, d2].all isDigitChar = true ∧
        y = (decimalValue [y1, y2, y3, y4] : Int) ∧
        mo = (decimalValue [mo1, mo2] : Int) ∧ 1 ≤ mo ∧ mo ≤ 12 ∧
        d = (decimalValue [d1, d2] : Int) := by
  simp only [parseDateChunks, bind_ok_iff, Prod.exists, parseLongYear_ok_iff, skip_one_ok_iff,
    getnum_fixed_ok_iff, failIf_ok_iff, pure_eq_ok, Except.ok.injEq, Prod.mk.injEq]
  constructor
  · rintro ⟨a, b, ⟨y1, y2, y3, y4, rfl, hy, rfl⟩, v1, rfl, m, v2,
      ⟨mo1, mo2, rfl, hmo1, hmo2, rfl⟩, _, hrange, v3, rfl, dd, v4,
      ⟨d1, d2, rfl, hd1, hd2, rfl⟩, v5, rfl, rfl, rfl, rfl, rfl⟩
    refine ⟨y1, y2, y3, y4, mo1, mo2, d1, d2, rfl, ?_, rfl, rfl, ?_, ?_, rfl⟩
    · simp only [List.all_cons, List.all_nil, Bool.and_true, Bool.and_eq_true] at hy ⊢
      exact ⟨hy.1, hy.2.1, hy.2.2.1, hy.2.2.2, hmo1, hmo2, hd1, hd2⟩
    · simp only [Bool.or_eq_false_iff, decide_eq_false_iff_not] at hrange; omega
    · simp only [Bool.or_eq_false_iff, decide_eq_false_iff_not] at hrange; omega
  · rintro ⟨y1, y2, y3, y4, mo1, mo2, d1, d2, rfl, hall, rfl, rfl, hlo, hhi, rfl⟩
    simp only [List.all_cons, List.all_nil, Bool.and_true, Bool.and_eq_true] at hall
    refine ⟨_, _, ⟨y1, y2, y3, y4, rfl, ?_, rfl⟩, _, rfl, _, _,
      ⟨mo1, mo2, rfl, hall.2.2.2.2.1, hall.2.2.2.2.2.1, rfl⟩, (), ?_, _, rfl, _, _,
      ⟨d1, d2, rfl, hall.2.2.2.2.2.2.1, hall.2.2.2.2.2.2.2, rfl⟩, _, rfl, rfl, rfl, rfl, rfl⟩
    · simp only [List.all_cons, List.all_nil, Bool.and_true, Bool.and_eq_true]
      exact ⟨hall.1, hall.2.1, hall.2.2.1, hall.2.2.2.1⟩
    · simp only [Bool.or_eq_false_iff, decide_eq_false_iff_not]; omega

/-! ### The fractional second -/

theorem takeWhile_all (l : List Char) : (l.takeWhile isDigitChar).all isDigitChar = true := by
  rw [List.all_eq_true]
  intro x hx
  exact List.mem_takeWhile_imp hx

theorem all_take (l : List Char) (n : Nat) (h : l.all isDigitChar = true) :
    (l.take n).all isDigitChar = true := by
  rw [List.all_eq_true] at h ⊢
  intro x hx
  exact h x (List.mem_of_mem_take hx)

/-- On a comma or period followed by digits, `parseNanoseconds` succeeds with a
value below one second. -/
theorem parseNanoseconds_ok (p d : Char) (tl : List Char)
    (hp : commaOrPeriod p = true) (hd : isDigitChar d = true) :
    ∃ ns, parseNanoseconds (p :: d :: tl) (2 + (tl.takeWhile isDigitChar).length) = .ok ns
      ∧ 0 ≤ ns ∧ ns < 1000000000 := by
  have hsplit : tl = tl.takeWhile isDigitChar ++ tl.dropWhile isDigitChar :=
    (List.takeWhile_append_dropWhile _ _).symm
  generalize htw : tl.takeWhile isDigitChar = tw at hsplit
  have htwd : tw.all isDigitChar = true := by rw [← htw]; exact takeWhile_all tl
  -- the digits handed to `atoi`
  have key : ∀ (L : List Char) (w : Nat), L.all isDigitChar = true → L ≠ [] →
      L.length + 1 = w → w ≤ 10 →
      ∃ ns, (match atoi L with
        | .error e => (.error e : Except GoError Int)
        | .ok ns => if ns < 0 then .error .timeParse else .ok (ns * 10 ^ (10 - w))) = .ok ns
        ∧ 0 ≤ ns ∧ ns < 1000000000 := by
    intro L w hL hne hw hw10
    rw [atoi_digits L hne hL (by omega)]
    have hlt := foldl_digits_lt L 0 0 hL (by norm_num)
    have hv : decimalValue L < 10 ^ L.length := by simpa [decimalValue] using hlt
    refine ⟨(decimalValue L : Int) * 10 ^ (10 - w), ?_, by positivity, ?_⟩
    · simp
    · have h1 : decimalValue L * 10 ^ (10 - w) < 10 ^ L.length * 10 ^ (10 - w) :=
        Nat.mul_lt_mul_of_pos_right hv (by positivity)
      have h2 : 10 ^ L.length * 10 ^ (10 - w) = 10 ^ 9 := by
        rw [← pow_add]; congr 1; omega
      rw [h2] at h1
      have h3 : ((decimalValue L * 10 ^ (10 - w) : Nat) : Int) < ((10 ^ 9 : Nat) : Int) :=
        Int.ofNat_lt.mpr h1
      push_cast at h3
      norm_num at h3 ⊢
      exact h3
  unfold parseNanoseconds
  simp only [List.headD_cons, hp, Bool.not_true, Bool.false_eq_true, if_false]
  by_cases hk : 2 + tw.length > 10
  · simp only [hk, if_true]
    have hL : (List.take 10 (List.take 10 (p :: d :: tl))).drop 1 = d :: tw.take 8 := by
      rw [hsplit]
      simp only [List.take_succ_cons, List.take_take, List.drop_succ_cons, List.drop_zero,
        min_self]
      rw [List.take_append_of_le_length (by omega)]
    rw [hL]
    exact key (d :: tw.take 8) 10
      (by simp only [List.all_cons, hd, Bool.true_and]; exact all_take tw 8 htwd)
      (by simp) (by simp; omega) (by omega)
  · simp only [hk, if_false]
    have hL : (List.take (2 + tw.length) (p :: d :: tl)).drop 1 = d :: tw := by
      rw [hsplit]
      have : 2 + tw.length = (tw.length + 1) + 1 := by omega
      rw [this]
      simp only [List.take_succ_cons, List.drop_succ_cons, List.drop_zero]
      rw [List.take_append_of_le_length (by omega), List.take_length]
    rw [hL]
    exact key (d :: tw) (2 + tw.length)
      (by simp only [List.all_cons, hd, Bool.true_and]; exact htwd)
      (by simp) (by simp; omega) (by omega)

theorem isDigit_dropWhile (l : List Char) : isDigit (l.dropWhile isDigitChar) 0 = false := by
  induction l with
  | nil => simp [isDigit]
  | cons c cs ih =>
    by_cases hc : isDigitChar c = true
    · simpa [List.dropWhile_cons, hc] using ih
    · simp [List.dropWhile_cons, hc, isDigit_zero_cons]

theorem takeWhile_digits_append (ds rest : List Char) (hds : ds.all isDigitChar = true)
    (hrest : isDigit rest 0 = false) :
    (ds ++ rest).takeWhile isDigitChar = ds ∧ (ds ++ rest).dropWhile isDigitChar = rest := by
  induction ds with
  | nil =>
    cases rest with
    | nil => simp
    | cons r rs =>
      rw [isDigit_zero_cons] at hrest
      simp [List.takeWhile_cons, List.dropWhile_cons, hrest]
  | cons c cs ih =>
    simp only [List.all_cons, Bool.and_eq_true] at hds
    have := ih hds.2
    simp [List.takeWhile_cons, List.dropWhile_cons, hds.1, this.1, this.2]

theorem drop_fraction (p d : Char) (tl : List Char) :
    (p :: d :: tl).drop (2 + (tl.takeWhile isDigitChar).length) = tl.dropWhile isDigitChar := by
  have h2 : 2 + (tl.takeWhile isDigitChar).length
      = ((tl.takeWhile isDigitChar).length + 1) + 1 := by omega
  rw [h2]
  simp only [List.drop_succ_cons]
  have h := List.drop_left (tl.takeWhile isDigitChar) (tl.dropWhile isDigitChar)
  rw [List.takeWhile_append_dropWhile] at h
  exact h

theorem parseFraction_none (value : List Char) (h : commaOrPeriod (value.headD ' ') = false) :
    parseFraction value = .ok (0, value) := by
  unfold parseFraction
  rw [if_neg (by rw [h]; simp)]

/-- A comma or period, one or more digits, and a rest that does not start with a
digit: the fraction is consumed. -/
theorem parseFraction_some (p d : Char) (ds rest : List Char)
    (hp : commaOrPeriod p = true) (hd : isDigitChar d = true)
    (hds : ds.all isDigitChar = true) (hrest : isDigit rest 0 = false) :
    ∃ ns, parseFraction (p :: d :: (ds ++ rest)) = .ok (ns, rest) ∧ 0 ≤ ns ∧ ns < 1000000000 := by
  obtain ⟨ns, hns, h0, h1⟩ := parseNanoseconds_ok p d (ds ++ rest) hp hd
  refine ⟨ns, ?_, h0, h1⟩
  have hcond : (decide ((p :: d :: (ds ++ rest)).length ≥ 2)
      && commaOrPeriod ((p :: d :: (ds ++ rest)).headD ' ')
      && isDigit (p :: d :: (ds ++ rest)) 1) = true := by
    simp [hp, isDigit_one_cons, isDigit_zero_cons, hd]
  unfold parseFraction
  rw [if_pos hcond]
  simp only [List.drop_succ_cons, List.drop_zero]
  rw [hns]
  simp only [Except.ok.injEq, Prod.mk.injEq, true_and]
  have := drop_fraction p d (ds ++ rest)
  simp only [List.drop_succ_cons, List.drop_zero] at this
  rw [(takeWhile_digits_append ds rest hds hrest).2] at this
  have h2 : 2 + ((ds ++ rest).takeWhile isDigitChar).length
      = (((ds ++ rest).takeWhile isDigitChar).length + 1) + 1 := by omega
  rw [h2]
  simp only [List.drop_succ_cons]
  rw [h2] at this
  simpa using this

theorem parseFraction_inv (value rest : List Char) (ns : Int)
    (h : parseFraction value = .ok (ns, rest)) :
    (value = rest ∧ ns = 0) ∨
    (∃ p d ds, value = p :: d :: (ds ++ rest) ∧ commaOrPeriod p = true ∧
      isDigitChar d = true ∧ ds.all isDigitChar = true ∧ isDigit rest 0 = false ∧
      0 ≤ ns ∧ ns < 1000000000) := by
  unfold parseFraction at h
  split at h
  · rename_i hcond
    right
    rcases value with _ | ⟨p, _ | ⟨d, tl⟩⟩
    · simp at hcond
    · simp at hcond
    · simp only [List.length_cons, List.headD_cons, isDigit_one_cons, isDigit_zero_cons,
        Bool.and_eq_true, decide_eq_true_eq] at hcond
      obtain ⟨ns1, hns1, h0, h1⟩ := parseNanoseconds_ok p d tl hcond.1.2 hcond.2
      simp only [List.drop_succ_cons, List.drop_zero] at h
      rw [hns1] at h
      simp only [Except.ok.injEq, Prod.mk.injEq] at h
      have hdrop := drop_fraction p d tl
      refine ⟨p, d, tl.takeWhile isDigitChar, ?_, hcond.1.2, hcond.2, takeWhile_all tl, ?_, ?_, ?_⟩
      · rw [← h.2, hdrop, List.takeWhile_append_dropWhile]
      · rw [← h.2, hdrop]; exact isDigit_dropWhile tl
      · rw [← h.1]; exact h0
      · rw [← h.1]; exact h1
  · simp only [Except.ok.injEq, Prod.mk.injEq] at h
    exact Or.inl ⟨h.2, h.1.symm⟩

/-! ### The zone offset -/

theorem getnum_pair_ok (a b : Char) (n : Int) (rest : List Char)
    (h : getnum [a, b] true = .ok (n, rest)) :
    isDigitChar a = true ∧ isDigitChar b = true ∧ n = (decimalValue [a, b] : Int) := by
  obtain ⟨a1, b1, heq, ha, hb, hn⟩ := (getnum_fixed_ok_iff _ _ _).mp h
  simp only [List.cons.injEq] at heq
  obtain ⟨rfl, rfl, _⟩ := heq
  exact ⟨ha, hb, hn⟩

theorem parseNumColonTZ_digits (sg oh1 oh2 om1 om2 : Char) (rest : List Char)
    (hd : [oh1, oh2, om1, om2].all isDigitChar = true) :
    parseNumColonTZ (sg :: oh1 :: oh2 :: ':' :: om1 :: om2 :: rest) =
      if (decimalValue [oh1, oh2] : Int) > 24 ∨ (decimalValue [om1, om2] : Int) > 60 then
        .error .timeParse
      else if sg = '+' then
        .ok (((decimalValue [oh1, oh2] : Int) * 60 + (decimalValue [om1, om2] : Int)) * 60 + 0,
          rest)
      else if sg = '-' then
        .ok (-(((decimalValue [oh1, oh2] : Int) * 60 + (decimalValue [om1, om2] : Int)) * 60
          + 0), rest)
      else .error .timeParse := by
  simp only [List.all_cons, List.all_nil, Bool.and_true, Bool.and_eq_true] at hd
  have h1 := getnum_two_digits oh1 oh2 [] true hd.1 hd.2.1
  have h2 := getnum_two_digits om1 om2 [] true hd.2.2.1 hd.2.2.2
  have h3 : getnum ['0', '0'] true = .ok (0, []) := by decide
  unfold parseNumColonTZ
  simp only [List.length_cons, List.length_nil, List.get?_cons_succ, List.get?_cons_zero,
    List.headD_cons, List.drop_succ_cons, List.drop_zero, List.take_succ_cons, List.take_zero,
    h1, h2, h3]
  rw [if_neg (by omega), if_neg (by simp)]
  simp

theorem parseNumColonTZ_inv (value rest : List Char) (off : Int)
    (h : parseNumColonTZ value = .ok (off, rest)) :
    ∃ sg oh1 oh2 om1 om2, value = sg :: oh1 :: oh2 :: ':' :: om1 :: om2 :: rest ∧
      [oh1, oh2, om1, om2].all isDigitChar = true ∧ (sg = '+' ∨ sg = '-') ∧
      decimalValue [oh1, oh2] ≤ 24 ∧ decimalValue [om1, om2] ≤ 60 ∧
      (off = ((decimalValue [oh1, oh2] : Int) * 60 + (decimalValue [om1, om2] : Int)) * 60 ∨
       off = -(((decimalValue [oh1, oh2] : Int) * 60 + (decimalValue [om1, om2] : Int)) * 60)) := by
  rcases value with _ | ⟨sg, _ | ⟨oh1, _ | ⟨oh2, _ | ⟨c, _ | ⟨om1, _ | ⟨om2, tl⟩⟩⟩⟩⟩⟩
  · simp [parseNumColonTZ] at h
  · simp [parseNumColonTZ] at h
  · simp [parseNumColonTZ] at h
  · simp [parseNumColonTZ] at h
  · simp [parseNumColonTZ] at h
  · simp [parseNumColonTZ] at h
  · by_cases hc : c = ':'
    · subst hc
      by_cases hd : [oh1, oh2, om1, om2].all isDigitChar = true
      · rw [parseNumColonTZ_digits sg oh1 oh2 om1 om2 tl hd] at h
        split at h
        · cases h
        · rename_i hr
          split at h
          · rename_i hs
            simp only [Except.ok.injEq, Prod.mk.injEq] at h
            exact ⟨sg, oh1, oh2, om1, om2, by rw [h.2], hd, Or.inl hs, by omega, by omega,
              Or.inl (by omega)⟩
          · split at h
            · rename_i hs
              simp only [Except.ok.injEq, Prod.mk.injEq] at h
              exact ⟨sg, oh1, oh2, om1, om2, by rw [h.2], hd, Or.inr hs, by omega, by omega,
                Or.inr (by omega)⟩
            · cases h
      · exfalso
        unfold parseNumColonTZ at h
        simp only [List.length_cons, List.length_nil, List.get?_cons_succ, List.get?_cons_zero,
          List.headD_cons, List.drop_succ_cons, List.drop_zero, List.take_succ_cons,
          List.take_zero] at h
        rw [if_neg (by omega), if_neg (by simp)] at h
        cases h1 : getnum [oh1, oh2] true with
        | error e => simp [h1] at h
        | ok r1 =>
          obtain ⟨n1, r1⟩ := r1
          cases h2 : getnum [om1, om2] true with
          | error e => simp [h1, h2] at h
          | ok r2 =>
            obtain ⟨n2, r2⟩ := r2
            have g1 := getnum_pair_ok _ _ _ _ h1
            have g2 := getnum_pair_ok _ _ _ _ h2
            apply hd
            simp [g1.1, g1.2.1, g2.1, g2.2.1]
    · simp [parseNumColonTZ, hc] at h

/-! ### The clock chunks -/

theorem parseClockChunks_inv (value rest : List Char) (h mi s ns : Int)
    (hp : parseClockChunks value = .ok (h, mi, s, ns, rest)) :
    ∃ (hh : List Char) (mi1 mi2 s1 s2 : Char) (frac : List Char),
      value = hh ++ [':', mi1, mi2, ':', s1, s2] ++ frac ++ rest ∧
      hh.all isDigitChar = true ∧ (hh.length = 1 ∨ hh.length = 2) ∧
      [mi1, mi2, s1, s2].all isDigitChar = true ∧ fractionOK frac = true ∧
      h = (decimalValue hh : Int) ∧ h < 24 ∧
      mi = (decimalValue [mi1, mi2] : Int) ∧ mi < 60 ∧
      s = (decimalValue [s1, s2] : Int) ∧ s < 60 ∧ 0 ≤ ns ∧ ns < 1000000000 := by
  simp only [parseClockChunks, bind_ok_iff, Prod.exists, skip_one_ok_iff,
    getnum_fixed_ok_iff, getnum_free_ok_iff, failIf_ok_iff, pure_eq_ok, Except.ok.injEq,
    Prod.mk.injEq, Bool.or_eq_false_iff, decide_eq_false_iff_not] at hp
  obtain ⟨hv, v1, hhour, _, hhr, v2, rfl, mv, v3, ⟨mi1, mi2, rfl, hmi1, hmi2, rfl⟩, _, hmr,
    v4, rfl, sv, v5, ⟨s1, s2, rfl, hs1, hs2, rfl⟩, _, hsr, nsv, v6, hfrac,
    rfl, rfl, rfl, rfl, rfl⟩ := hp
  have hms : [mi1, mi2, s1, s2].all isDigitChar = true := by simp [hmi1, hmi2, hs1, hs2]
  -- the fractional second
  have hfr : ∃ frac, v5 = frac ++ v6 ∧ fractionOK frac = true ∧ 0 ≤ nsv ∧ nsv < 1000000000 := by
    rcases parseFraction_inv _ _ _ hfrac with ⟨h1, h2⟩ | ⟨p, d, ds, h1, h2, h3, h4, _, h5, h6⟩
    · exact ⟨[], by simpa using h1, rfl, by omega, by omega⟩
    · refine ⟨p :: d :: ds, by simpa using h1, ?_, h5, h6⟩
      simp [fractionOK, h2, h3, h4]
  obtain ⟨frac, rfl, hfok, hn0, hn1⟩ := hfr
  rcases hhour with ⟨a, b, rfl, ha, hb, rfl⟩ | ⟨a, rfl, ha, _, rfl⟩
  · exact ⟨[a, b], mi1, mi2, s1, s2, frac, by simp, by simp [ha, hb], Or.inr rfl, hms, hfok,
      rfl, by omega, rfl, by omega, rfl, by omega, hn0, hn1⟩
  · exact ⟨[a], mi1, mi2, s1, s2, frac, by simp, by simp [ha], Or.inl rfl, hms, hfok,
      rfl, by omega, rfl, by omega, rfl, by omega, hn0, hn1⟩

theorem parseClockChunks_fwd (hh : List Char) (mi1 mi2 s1 s2 : Char) (frac rest : List Char)
    (hhd : hh.all isDigitChar = true) (hlen : hh.length = 1 ∨ hh.length = 2)
    (hms : [mi1, mi2, s1, s2].all isDigitChar = true) (hfok : fractionOK frac = true)
    (hh24 : decimalValue hh < 24) (hm60 : decimalValue [mi1, mi2] < 60)
    (hs60 : decimalValue [s1, s2] < 60)
    (hrest : commaOrPeriod (rest.headD ' ') = false ∧ isDigit rest 0 = false) :
    ∃ ns, parseClockChunks (hh ++ [':', mi1, mi2, ':', s1, s2] ++ frac ++ rest)
        = .ok ((decimalValue hh : Int), (decimalValue [mi1, mi2] : Int),
            (decimalValue [s1, s2] : Int), ns, rest)
      ∧ 0 ≤ ns ∧ ns < 1000000000 := by
  simp only [List.all_cons, List.all_nil, Bool.and_true, Bool.and_eq_true] at hms
  -- the fractional second
  have hfr : ∃ ns, parseFraction (frac ++ rest) = .ok (ns, rest) ∧ 0 ≤ ns ∧ ns < 1000000000 := by
    rcases frac with _ | ⟨p, _ | ⟨d, ds⟩⟩
    · exact ⟨0, by simpa using parseFraction_none rest hrest.1, by omega, by omega⟩
    · simp [fractionOK] at hfok
    · simp only [fractionOK, List.isEmpty_cons, Bool.not_false, Bool.and_true, List.all_cons,
        Bool.and_eq_true] at hfok
      exact parseFraction_some p d ds rest hfok.1 hfok.2.1 hfok.2.2 hrest.2
  obtain ⟨ns, hns, hn0, hn1⟩ := hfr
  refine ⟨ns, ?_, hn0, hn1⟩
  simp only [parseClockChunks, bind_ok_iff, Prod.exists, skip_one_ok_iff,
    getnum_fixed_ok_iff, getnum_free_ok_iff, failIf_ok_iff, pure_eq_ok, Except.ok.injEq,
    Prod.mk.injEq, Bool.or_eq_false_iff, decide_eq_false_iff_not]
  have hcolon : isDigit (':' :: mi1 :: mi2 :: ':' :: s1 :: s2 :: (frac ++ rest)) 0 = false := by
    rw [isDigit_zero_cons]; decide
  refine ⟨(decimalValue hh : Int), ':' :: mi1 :: mi2 :: ':' :: s1 :: s2 :: (frac ++ rest), ?_,
    (), ⟨by omega, by omega⟩, _, rfl, _, _, ⟨mi1, mi2, rfl, hms.1, hms.2.1, rfl⟩, (),
    ⟨by omega, by omega⟩, _, rfl, _, _, ⟨s1, s2, rfl, hms.2.2.1, hms.2.2.2, rfl⟩, (),
    ⟨by omega, by omega⟩, ns, rest, hns, rfl, rfl, rfl, rfl, rfl⟩
  rcases hlen with h1 | h2
  · obtain ⟨a, rfl⟩ := List.length_eq_one.mp h1
    right
    simp only [List.all_cons, List.all_nil, Bool.and_true] at hhd
    exact ⟨a, by simp, hhd, hcolon, rfl⟩
  · obtain ⟨a, b, rfl⟩ := List.length_eq_two.mp h2
    left
    simp only [List.all_cons, List.all_nil, Bool.and_true, Bool.and_eq_true] at hhd
    exact ⟨a, b, by simp, hhd.1, hhd.2, rfl⟩

/-! ## Lemmas: `time.Date` and `Format` -/

theorem norm_id (hi lo base : Int) (h0 : 0 ≤ lo) (h1 : lo < base) :
    norm hi lo base = (hi, lo) := by
  unfold norm
  simp only [if_neg (not_lt.mpr h0), if_neg (not_le.mpr h1)]

theorem daysSinceEpoch_bounds (year : Int) (h0 : 0 ≤ year) (h1 : year ≤ 9999) :
    106751990353566 ≤ daysSinceEpoch year ∧ daysSinceEpoch year ≤ 106751994005626 := by
  unfold daysSinceEpoch absoluteZeroYear
  simp only []
  omega

theorem daysBefore_bounds (month : Int) (h0 : 1 ≤ month) (h1 : month ≤ 12) :
    0 ≤ daysBefore.getD (month - 1).toNat 0 ∧ daysBefore.getD (month - 1).toNat 0 ≤ 334 := by
  interval_cases month <;> decide

theorem daysIn_le (month year : Int) (h0 : 1 ≤ month) (h1 : month ≤ 12) :
    daysIn month year ≤ 31 := by
  unfold daysIn
  split
  · omega
  · interval_cases month <;> decide

/-- The Unix seconds of a date with in-range fields: a whole number of days since
the absolute epoch plus the time of day, shifted to the Unix epoch. -/
theorem Date_eq (year month day hour min sec nsec : Int)
    (hy0 : 0 ≤ year) (hy1 : year ≤ 9999) (hm0 : 1 ≤ month) (hm1 : month ≤ 12)
    (hd0 : 1 ≤ day) (hd1 : day ≤ 31) (hh0 : 0 ≤ hour) (hh1 : hour < 24)
    (hmi0 : 0 ≤ min) (hmi1 : min < 60) (hs0 : 0 ≤ sec) (hs1 : sec < 60)
    (hn0 : 0 ≤ nsec) (hn1 : nsec < 1000000000) :
    ∃ A : Int, Date year month day hour min sec nsec
        = A * 86400 + (hour * 3600 + min * 60 + sec) - 9223372028715321600 ∧
      106751990353566 ≤ A ∧ A ≤ 106751994005626 + 366 := by
  have hb := daysBefore_bounds month hm0 hm1
  have hdse := daysSinceEpoch_bounds year hy0 hy1
  unfold Date
  simp only [norm_id year (month - 1) 12 (by omega) (by omega),
    norm_id sec nsec 1000000000 hn0 hn1, norm_id min sec 60 hs0 hs1,
    norm_id hour min 60 hmi0 hmi1, norm_id day hour 24 hh0 hh1, Int.sub_add_cancel]
  generalize daysSinceEpoch year = D at hdse ⊢
  generalize daysBefore.getD (month - 1).toNat 0 = B at hb ⊢
  have hK : absoluteToInternal + internalToUnix = -9223372028715321600 := by decide
  rw [hK]
  by_cases hl : isLeap year = true ∧ month ≥ 3
  · rw [if_pos hl]
    refine ⟨D + B + 1 + (day - 1), ?_, by omega, by omega⟩
    unfold wrap64
    omega
  · rw [if_neg hl]
    refine ⟨D + B + (day - 1), ?_, by omega, by omega⟩
    unfold wrap64
    omega

theorem appendInt_two (n : Nat) (h : n < 100) :
    appendInt (n : Int) 2 = [Nat.digitChar (n / 10), Nat.digitChar (n % 10)] := by
  interval_cases n <;> rfl

theorem appendInt_two_digits (a b : Char) (ha : isDigitChar a = true)
    (hb : isDigitChar b = true) : appendInt (decimalValue [a, b] : Int) 2 = [a, b] := by
  have h1 := digitVal_le a ha
  have h2 := digitVal_le b hb
  have hv : decimalValue [a, b] = digitVal a * 10 + digitVal b := by simp [decimalValue]
  rw [appendInt_two _ (by omega), hv]
  have e1 : (digitVal a * 10 + digitVal b) / 10 = digitVal a := by omega
  have e2 : (digitVal a * 10 + digitVal b) % 10 = digitVal b := by omega
  rw [e1, e2, digitChar_digitVal a ha, digitChar_digitVal b hb]

theorem appendInt_one_digit (a : Char) (ha : isDigitChar a = true) :
    appendInt (decimalValue [a] : Int) 2 = ['0', a] := by
  have h1 := digitVal_le a ha
  have hv : decimalValue [a] = digitVal a := by simp [decimalValue]
  rw [appendInt_two _ (by omega), hv]
  have e1 : digitVal a / 10 = 0 := by omega
  have e2 : digitVal a % 10 = digitVal a := by omega
  rw [e1, e2, digitChar_digitVal a ha]
  rfl

/-- Formatting the instant `Date ... - offset` in a zone of that offset shows the
clock the date was built from. -/
theorem Format_Date (year month day hour min sec nsec off : Int)
    (hy0 : 0 ≤ year) (hy1 : year ≤ 9999) (hm0 : 1 ≤ month) (hm1 : month ≤ 12)
    (hd0 : 1 ≤ day) (hd1 : day ≤ 31) (hh0 : 0 ≤ hour) (hh1 : hour < 24)
    (hmi0 : 0 ≤ min) (hmi1 : min < 60) (hs0 : 0 ≤ sec) (hs1 : sec < 60)
    (hn0 : 0 ≤ nsec) (hn1 : nsec < 1000000000) :
    Format { unixSec := Date year month day hour min sec nsec - off,
             nsec := nsec, offset := off }
      = ⟨appendInt hour 2 ++ [':'] ++ appendInt min 2 ++ [':'] ++ appendInt sec 2⟩ := by
  obtain ⟨A, hA, hA0, hA1⟩ := Date_eq year month day hour min sec nsec hy0 hy1 hm0 hm1 hd0 hd1
    hh0 hh1 hmi0 hmi1 hs0 hs1 hn0 hn1
  have hK : unixToInternal + internalToAbsolute = 9223372028715321600 := by decide
  unfold Format
  simp only [hK, hA]
  have habs : (wrap64 (wrap64 (A * 86400 + (hour * 3600 + min * 60 + sec)
      - 9223372028715321600 - off + off) + 9223372028715321600)) % 2 ^ 64
      = A * 86400 + (hour * 3600 + min * 60 + sec) := by
    unfold wrap64
    omega
  rw [habs]
  have hc : absClock (A * 86400 + (hour * 3600 + min * 60 + sec)) = (hour, min, sec) := by
    unfold absClock
    simp only [Prod.mk.injEq]
    refine ⟨?_, ?_, ?_⟩ <;> omega
  rw [hc]

/-! ## Lemmas: `time.Parse` as a whole -/

theorem decimalValue_four_le (a b c d : Char) (h : [a, b, c, d].all isDigitChar = true) :
    decimalValue [a, b, c, d] ≤ 9999 := by
  have := foldl_digits_lt [a, b, c, d] 0 0 h (by norm_num)
  have h2 : decimalValue [a, b, c, d] < 10 ^ 4 := this
  norm_num at h2
  omega

theorem wellFormed_iff (f : TimestampText) :
    f.wellFormed = true ↔
      [f.y1, f.y2, f.y3, f.y4, f.mo1, f.mo2, f.d1, f.d2].all isDigitChar = true ∧
      f.hh.all isDigitChar = true ∧ (f.hh.length = 1 ∨ f.hh.length = 2) ∧
      [f.mi1, f.mi2, f.s1, f.s2].all isDigitChar = true ∧
      [f.oh1, f.oh2, f.om1, f.om2].all isDigitChar = true ∧
      fractionOK f.frac = true ∧ (f.sg = '+' ∨ f.sg = '-') := by
  simp only [TimestampText.wellFormed, List.all_cons, List.all_nil, Bool.and_true,
    Bool.and_eq_true, Bool.or_eq_true, decide_eq_true_eq]
  tauto

theorem inRange_iff (f : TimestampText) :
    f.inRange = true ↔
      1 ≤ decimalValue [f.mo1, f.mo2] ∧ decimalValue [f.mo1, f.mo2] ≤ 12 ∧
      1 ≤ decimalValue [f.d1, f.d2] ∧
      (decimalValue [f.d1, f.d2] : Int)
        ≤ daysIn (decimalValue [f.mo1, f.mo2]) (decimalValue [f.y1, f.y2, f.y3, f.y4]) ∧
      decimalValue f.hh < 24 ∧ decimalValue [f.mi1, f.mi2] < 60 ∧
      decimalValue [f.s1, f.s2] < 60 ∧ decimalValue [f.oh1, f.oh2] ≤ 24 ∧
      decimalValue [f.om1, f.om2] ≤ 60 := by
  simp only [TimestampText.inRange, Bool.and_eq_true, decide_eq_true_eq]
  tauto

/-- Every text that `time.Parse` accepts spells well-formed, in-range fields. -/
theorem Parse_inv (s : List Char) (t : Time) (h : Parse s = .ok t) :
    ∃ f : TimestampText, f.wellFormed = true ∧ f.inRange = true ∧ s = f.text := by
  simp only [Parse, bind_ok_iff, Prod.exists, parseDateChunks_ok_iff, failIf_ok_iff,
    Bool.or_eq_false_iff, decide_eq_false_iff_not] at h
  obtain ⟨y, mo, d, v1, ⟨y1, y2, y3, y4, mo1, mo2, d1, d2, rfl, hdd, rfl, rfl, hmo0, hmo1, rfl⟩,
    hr, mi, sc, ns, v2, hclock, off, v3, htz, _, hend, _, hday, _⟩ := h
  obtain ⟨hh, mi1, mi2, s1, s2, frac, rfl, hhd, hlen, hms, hfok, rfl, hh24, rfl, hm60, rfl,
    hs60, _, _⟩ := parseClockChunks_inv _ _ _ _ _ _ hclock
  obtain ⟨sg, oh1, oh2, om1, om2, rfl, hod, hsg, hoh, hom, _⟩ := parseNumColonTZ_inv _ _ _ htz
  have hv3 : v3 = [] := by simpa using hend
  subst hv3
  refine ⟨⟨y1, y2, y3, y4, mo1, mo2, d1, d2, hh, mi1, mi2, s1, s2, frac, sg, oh1, oh2, om1,
    om2⟩, ?_, ?_, ?_⟩
  · rw [wellFormed_iff]
    exact ⟨hdd, hhd, hlen, hms, hod, hfok, hsg⟩
  · rw [inRange_iff]
    simp only
    refine ⟨by omega, by omega, by omega, by omega, by omega, by omega, by omega, hoh, hom⟩
  · simp [TimestampText.text]

/-- Every text that spells well-formed, in-range fields is accepted by
`time.Parse`, and formats as the hour (padded to two digits), minute and
second written in it. -/
theorem Parse_fwd (f : TimestampText) (hw : f.wellFormed = true) (hr : f.inRange = true) :
    ∃ t, Parse f.text = .ok t ∧
      Format t = ⟨appendInt (decimalValue f.hh : Int) 2 ++ [':', f.mi1, f.mi2, ':', f.s1, f.s2]⟩ := by
  obtain ⟨hdd, hhd, hlen, hms, hod, hfok, hsg⟩ := (wellFormed_iff f).mp hw
  obtain ⟨hmo0, hmo1, hd0, hd1, hh24, hm60, hs60, hoh, hom⟩ := (inRange_iff f).mp hr
  have hsgc : commaOrPeriod f.sg = false ∧ isDigitChar f.sg = false := by
    rcases hsg with h | h <;> rw [h] <;> decide
  obtain ⟨ns, hclock, hn0, hn1⟩ := parseClockChunks_fwd f.hh f.mi1 f.mi2 f.s1 f.s2 f.frac
    [f.sg, f.oh1, f.oh2, ':', f.om1, f.om2] hhd hlen hms hfok hh24 hm60 hs60
    ⟨by simpa using hsgc.1, by rw [isDigit_zero_cons]; exact hsgc.2⟩
  have hyear : decimalValue [f.y1, f.y2, f.y3, f.y4] ≤ 9999 := by
    apply decimalValue_four_le
    simp only [List.all_cons, List.all_nil, Bool.and_true, Bool.and_eq_true] at hdd ⊢
    exact ⟨hdd.1, hdd.2.1, hdd.2.2.1, hdd.2.2.2.1⟩
  have hdin := daysIn_le (decimalValue [f.mo1, f.mo2]) (decimalValue [f.y1, f.y2, f.y3, f.y4])
    (by omega) (by omega)
  have htz := parseNumColonTZ_digits f.sg f.oh1 f.oh2 f.om1 f.om2 [] hod
  rw [if_neg (by omega)] at htz
  have hfmt : ∀ off : Int,
      Format ⟨Date (decimalValue [f.y1, f.y2, f.y3, f.y4])
          (decimalValue [f.mo1, f.mo2]) (decimalValue [f.d1, f.d2]) (decimalValue f.hh)
          (decimalValue [f.mi1, f.mi2]) (decimalValue [f.s1, f.s2]) ns - off, ns, off⟩
      = ⟨appendInt (decimalValue f.hh : Int) 2 ++ [':', f.mi1, f.mi2, ':', f.s1, f.s2]⟩ := by
    intro off
    rw [Format_Date _ _ _ _ _ _ _ off (by omega) (by omega) (by omega) (by omega) (by omega)
      (by omega) (by omega) (by omega) (by omega) (by omega) (by omega) (by omega) hn0 hn1]
    simp only [List.all_cons, List.all_nil, Bool.and_true, Bool.and_eq_true] at hms
    rw [appendInt_two_digits f.mi1 f.mi2 hms.1 hms.2.1,
      appendInt_two_digits f.s1 f.s2 hms.2.2.1 hms.2.2.2]
    simp
  have htext : f.text = f.y1 :: f.y2 :: f.y3 :: f.y4 :: '-' :: f.mo1 :: f.mo2 :: '-' :: f.d1
      :: f.d2 :: 'T' :: (f.hh ++ [':', f.mi1, f.mi2, ':', f.s1, f.s2] ++ f.frac
        ++ [f.sg, f.oh1, f.oh2, ':', f.om1, f.om2]) := by
    simp [TimestampText.text]
  have hdate := (parseDateChunks_ok_iff f.text
      (f.hh ++ [':', f.mi1, f.mi2, ':', f.s1, f.s2] ++ f.frac
        ++ [f.sg, f.oh1, f.oh2, ':', f.om1, f.om2])
      (decimalValue [f.y1, f.y2, f.y3, f.y4]) (decimalValue [f.mo1, f.mo2])
      (decimalValue [f.d1, f.d2])).mpr
    ⟨f.y1, f.y2, f.y3, f.y4, f.mo1, f.mo2, f.d1, f.d2, htext, hdd, rfl, rfl, by omega,
      by omega, rfl⟩
  simp only [Parse, bind_ok_iff, Prod.exists, failIf_ok_iff, Bool.or_eq_false_iff,
    decide_eq_false_iff_not]
  have hoff : ∃ off : Int,
      parseNumColonTZ [f.sg, f.oh1, f.oh2, ':', f.om1, f.om2] = .ok (off, []) ∧ off ≠ -1 := by
    rcases hsg with hplus | hminus
    · rw [if_pos hplus] at htz
      exact ⟨_, htz, by omega⟩
    · have hnp : f.sg ≠ '+' := by rw [hminus]; decide
      rw [if_neg hnp, if_pos hminus] at htz
      exact ⟨_, htz, by omega⟩
  obtain ⟨off, htz2, hne⟩ := hoff
  refine ⟨⟨Date (decimalValue [f.y1, f.y2, f.y3, f.y4])
          (decimalValue [f.mo1, f.mo2]) (decimalValue [f.d1, f.d2]) (decimalValue f.hh)
          (decimalValue [f.mi1, f.mi2]) (decimalValue [f.s1, f.s2]) ns - off, ns, off⟩,
    ⟨_, _, _, _, hdate, _, _, _, _, _, hclock, _, _, htz2, (), by simp, (),
      ⟨by omega, by omega⟩, ?_⟩, hfmt off⟩
  rw [if_pos hne]
  rfl

/-! ## Claims about `Duration.UnmarshalJSON` -/

/-- C1, as amended: for every non-negative count of seconds `s` up to 9223372036
(the counts whose nanoseconds fit the 64-bit `time.Duration`), decoding the
base-10 text of `s`, bare or wrapped in double quotes, yields exactly
`<h>h <m>m <sec>s` in decimal without padding, for the naturals `h`, `m`, `sec`
with `s = 3600*h + 60*m + sec`, `m < 60` and `sec < 60`. -/
theorem C1_duration_decode_nonneg (du : String) (k j s h m sec : Nat)
    (hs : s ≤ 9223372036) (hdec : s = 3600 * h + 60 * m + sec)
    (hm : m < 60) (hsec : sec < 60) :
    Duration.UnmarshalJSON du
        ⟨List.replicate k '"' ++ (Nat.repr s).data ++ List.replicate j '"'⟩
      = .ok (Nat.repr h ++ "h " ++ Nat.repr m ++ "m " ++ Nat.repr sec ++ "s") := by
  have key := Duration_decode_fmtD du k j (s : Int) (by omega) (by omega)
  have e1 : Int.tdiv (s : Int) 3600 = (h : Int) := by
    rw [tdiv_cases _ _ (by omega)]
    split <;> omega
  rw [e1] at key
  have e2 : Int.tdiv ((s : Int) - 3600 * (h : Int)) 60 = (m : Int) := by
    rw [tdiv_cases _ _ (by omega)]
    split <;> omega
  rw [e2] at key
  have e3 : (s : Int) - 3600 * (h : Int) - 60 * (m : Int) = (sec : Int) := by omega
  rw [e3] at key
  exact key

/-- C1, instances: the four texts named by the claim. -/
theorem C1_duration_decode_nonneg_witness :
    (32400 ≤ 9223372036 ∧ 32400 = 3600 * 9 + 60 * 0 + 0 ∧ 0 < 60) ∧
    Duration.UnmarshalJSON "" "32400" = .ok "9h 0m 0s" ∧
    Duration.UnmarshalJSON "" "3661" = .ok "1h 1m 1s" ∧
    Duration.UnmarshalJSON "" "\"45000\"" = .ok "12h 30m 0s" ∧
    Duration.UnmarshalJSON "" "0" = .ok "0h 0m 0s" :=
  ⟨by decide,
   C1_duration_decode_nonneg "" 0 0 32400 9 0 0 (by decide) (by decide) (by decide) (by decide),
   C1_duration_decode_nonneg "" 0 0 3661 1 1 1 (by decide) (by decide) (by decide) (by decide),
   C1_duration_decode_nonneg "" 1 1 45000 12 30 0 (by decide) (by decide) (by decide)
     (by decide),
   C1_duration_decode_nonneg "" 0 0 0 0 0 0 (by decide) (by decide) (by decide) (by decide)⟩

/-- C1 fails without an upper bound: 9223372037 seconds are
`2562047h 47m 17s`, but their nanoseconds overflow `time.Duration` and the
decoder prints negative numbers; and the text of `2^63` is refused by
`strconv.Atoi`. -/
theorem C1_counterexample_overflow :
    (9223372037 : Nat) = 3600 * 2562047 + 60 * 47 + 17 ∧
    Duration.UnmarshalJSON "" "9223372037" = .ok "-2562047h -47m -16s" ∧
    Duration.UnmarshalJSON "" "9223372037" ≠ .ok "2562047h 47m 17s" ∧
    Duration.UnmarshalJSON "" "9223372036854775808" = .error .numRange := by
  decide

/-- C8, as amended: for an input that is not `null` once trimmed, decoding fails
exactly when the text is not a base-10 integer (optional sign, one or more
digits) or its value lies outside the 64-bit range `[-2^63, 2^63 - 1]`; every
base-10 integer text within that range decodes to some `<H>h <M>m <S>s`. -/
theorem C8_duration_decode_failure (du b : String) (hnull : Trim b '"' ≠ "null") :
    ((∃ e, Duration.UnmarshalJSON du b = .error e) ↔
      ¬ (isBase10Integer (Trim b '"').data = true ∧
          -(2 ^ 63) ≤ base10Value (Trim b '"').data ∧
          base10Value (Trim b '"').data < 2 ^ 63)) ∧
    ((isBase10Integer (Trim b '"').data = true ∧
          -(2 ^ 63) ≤ base10Value (Trim b '"').data ∧
          base10Value (Trim b '"').data < 2 ^ 63) →
      ∃ H M S : Int, Duration.UnmarshalJSON du b = .ok (sprintfHMS H M S)) := by
  have hspec := ParseInt_ok_iff (Trim b '"').data
  unfold Duration.UnmarshalJSON Atoi
  simp only [if_neg hnull]
  cases hp : ParseInt (Trim b '"').data with
  | error e =>
    have hno : ¬ (isBase10Integer (Trim b '"').data = true ∧
          -(2 ^ 63) ≤ base10Value (Trim b '"').data ∧
          base10Value (Trim b '"').data < 2 ^ 63) := by
      rintro ⟨h1, h2, h3⟩
      have := (hspec _).mpr ⟨h1, rfl, h2, h3⟩
      rw [hp] at this
      cases this
    exact ⟨⟨fun _ => hno, fun _ => ⟨e, rfl⟩⟩, fun h => absurd h hno⟩
  | ok n =>
    have hyes := (hspec n).mp hp
    have hin : isBase10Integer (Trim b '"').data = true ∧
          -(2 ^ 63) ≤ base10Value (Trim b '"').data ∧
          base10Value (Trim b '"').data < 2 ^ 63 := by
      rw [hyes.2.1]
      exact ⟨hyes.1, hyes.2.2.1, hyes.2.2.2⟩
    refine ⟨⟨?_, fun h => absurd hin h⟩, fun _ => ?_⟩
    · rintro ⟨e, he⟩
      cases he
    · exact ⟨(durationParts n).1, (durationParts n).2.1, (durationParts n).2.2, rfl⟩

/-- C8, instances: `-90` decodes, `12x` and a text beyond 64 bits do not. -/
theorem C8_duration_decode_failure_witness :
    Trim "\"12x\"" '"' ≠ "null" ∧
    (∃ e, Duration.UnmarshalJSON "" "\"12x\"" = .error e) ∧
    (∃ H M S : Int, Duration.UnmarshalJSON "" "-90" = .ok (sprintfHMS H M S)) :=
  ⟨by decide,
   (C8_duration_decode_failure "" "\"12x\"" (by decide)).1.mpr (by decide),
   (C8_duration_decode_failure "" "-90" (by decide)).2 (by decide)⟩

/-- C8 fails for large magnitudes: the text of `2^63` is a base-10 integer, yet
decoding it fails (with a range error). -/
theorem C8_counterexample_magnitude :
    isBase10Integer "9223372036854775808".data = true ∧
    Duration.UnmarshalJSON "" "9223372036854775808" = .error .numRange ∧
    isBase10Integer "-9223372036854775809".data = true ∧
    Duration.UnmarshalJSON "" "-9223372036854775809" = .error .numRange := by
  decide

/-- C9, as amended: for every integer `s` with `-9223372036 ≤ s ≤ 9223372036`
the three numbers printed come from division truncated toward zero:
`H = s quot 3600`, `M = (s - 3600*H) quot 60`, `S = s - 3600*H - 60*M`. For
`s ≥ 0` this is floor division and `0 ≤ M, S < 60`; for `s < 0` the numbers
are non-positive with `-60 < M, S ≤ 0`. Rounding to the nearest second leaves
the whole number of seconds unchanged. -/
theorem C9_duration_truncated_division (du : String) (k j : Nat) (s : Int)
    (h1 : -9223372036 ≤ s) (h2 : s ≤ 9223372036) :
    Duration.UnmarshalJSON du
        ⟨List.replicate k '"' ++ (fmtD s).data ++ List.replicate j '"'⟩
      = .ok (sprintfHMS (Int.tdiv s 3600) (Int.tdiv (s - 3600 * Int.tdiv s 3600) 60)
          (s - 3600 * Int.tdiv s 3600 - 60 * Int.tdiv (s - 3600 * Int.tdiv s 3600) 60)) ∧
    Round (wrap64 (s * Second)) Second = s * Second ∧
    (0 ≤ s →
      Int.tdiv s 3600 = s / 3600 ∧
      0 ≤ Int.tdiv (s - 3600 * Int.tdiv s 3600) 60 ∧
      Int.tdiv (s - 3600 * Int.tdiv s 3600) 60 < 60 ∧
      0 ≤ s - 3600 * Int.tdiv s 3600 - 60 * Int.tdiv (s - 3600 * Int.tdiv s 3600) 60 ∧
      s - 3600 * Int.tdiv s 3600 - 60 * Int.tdiv (s - 3600 * Int.tdiv s 3600) 60 < 60) ∧
    (s < 0 →
      Int.tdiv s 3600 = -((-s) / 3600) ∧
      -60 < Int.tdiv (s - 3600 * Int.tdiv s 3600) 60 ∧
      Int.tdiv (s - 3600 * Int.tdiv s 3600) 60 ≤ 0 ∧
      -60 < s - 3600 * Int.tdiv s 3600 - 60 * Int.tdiv (s - 3600 * Int.tdiv s 3600) 60 ∧
      s - 3600 * Int.tdiv s 3600 - 60 * Int.tdiv (s - 3600 * Int.tdiv s 3600) 60 ≤ 0) := by
  refine ⟨Duration_decode_fmtD du k j s h1 h2, ?_, ?_, ?_⟩
  · rw [wrap64_eq (s * Second) (by unfold Second; omega) (by unfold Second; omega)]
    exact Round_seconds s h1 h2
  · intro hs
    have hH : Int.tdiv s 3600 = s / 3600 := by
      rw [tdiv_cases _ _ (by omega), if_pos hs]
    rw [hH]
    have hM : Int.tdiv (s - 3600 * (s / 3600)) 60 = (s - 3600 * (s / 3600)) / 60 := by
      rw [tdiv_cases _ _ (by omega), if_pos (by omega)]
    rw [hM]
    omega
  · intro hs
    have hH : Int.tdiv s 3600 = -((-s) / 3600) := by
      rw [tdiv_cases _ _ (by omega), if_neg (by omega)]
    rw [hH]
    have hM : Int.tdiv (s - 3600 * -((-s) / 3600)) 60
        = -((-(s - 3600 * -((-s) / 3600))) / 60) := by
      rw [tdiv_cases _ _ (by omega)]
      split
      · omega
      · rfl
    rw [hM]
    omega

/-- C9, instances: `-3661` prints `-1h -1m -1s`, `3661` prints `1h 1m 1s`. -/
theorem C9_duration_truncated_division_witness :
    ((-9223372036 : Int) ≤ -3661 ∧ (-3661 : Int) ≤ 9223372036) ∧
    Duration.UnmarshalJSON "" "-3661" = .ok "-1h -1m -1s" ∧
    Duration.UnmarshalJSON "" "\"3661\"" = .ok "1h 1m 1s" :=
  ⟨by decide,
   (C9_duration_truncated_division "" 0 0 (Int.negSucc 3660) (by decide) (by decide)).1,
   (C9_duration_truncated_division "" 1 1 3661 (by decide) (by decide)).1⟩

/-- C9 fails for negative counts: for `s = -1` floor division would give
`-1h 59m 59s`, the decoder prints `0h 0m -1s`; and outside the 64-bit
nanosecond range the numbers are not a decomposition of `s` at all. -/
theorem C9_counterexample_negative :
    ((-1 : Int) / 3600 = -1) ∧
    durationParts (-1) = (0, 0, -1) ∧
    Duration.UnmarshalJSON "" "-1" = .ok "0h 0m -1s" ∧
    Duration.UnmarshalJSON "" "-1" ≠ .ok "-1h 59m 59s" ∧
    durationParts (-9223372037) = (2562047, 47, 16) := by
  decide

/-! ## Claims about `Timestamp.UnmarshalJSON` -/

theorem fraction_no_quote (frac : List Char) (h : fractionOK frac = true) :
    ∀ x ∈ frac, x ≠ '"' := by
  cases frac with
  | nil => intro x hx; cases hx
  | cons p ds =>
    simp only [fractionOK, Bool.and_eq_true] at h
    intro x hx
    rcases List.mem_cons.mp hx with hp | hd
    · rw [hp]; intro hq; rw [hq] at h; exact absurd h.1.1 (by decide)
    · exact (digit_ne_special x (List.all_eq_true.mp h.2 x hd)).2.2.1

/-- A well-formed timestamp text holds no double quote. -/
theorem text_no_quote (f : TimestampText) (hw : f.wellFormed = true) :
    ∀ x ∈ f.text, x ≠ '"' := by
  obtain ⟨hdd, hhd, _, hms, hod, hfok, hsg⟩ := (wellFormed_iff f).mp hw
  have hdig : ∀ l : List Char, l.all isDigitChar = true → ∀ x ∈ l, x ≠ '"' :=
    fun l hl x hx => (digit_ne_special x (List.all_eq_true.mp hl x hx)).2.2.1
  have hF := fraction_no_quote f.frac hfok
  have hS : f.sg ≠ '"' := by rcases hsg with h | h <;> rw [h] <;> decide
  intro x hx
  simp only [TimestampText.text, List.mem_append, List.mem_cons, List.mem_nil_iff,
    or_false] at hx
  have h1 := hdig _ hdd x
  have h2 := hdig _ hms x
  have h3 := hdig _ hod x
  have h4 := hdig _ hhd x
  have h5 := hF x
  simp only [List.mem_cons, List.mem_nil_iff, or_false] at h1 h2 h3
  rcases hx with (((hx | hx) | hx) | hx) | hx
  · rcases hx with h | h | h | h | h | h | h | h | h | h | h
    all_goals first
      | (apply h1; simp [h]; done)
      | (rw [h]; decide)
  · exact h4 hx
  · rcases hx with h | h | h | h | h | h
    all_goals first
      | (apply h2; simp [h]; done)
      | (rw [h]; decide)
  · exact h5 hx
  · rcases hx with h | h | h | h | h | h
    all_goals first
      | (apply h3; simp [h]; done)
      | (rw [h]; exact hS)
      | (rw [h]; decide)

/-- A well-formed timestamp text is not the word `null`. -/
theorem text_ne_null (f : TimestampText) (hw : f.wellFormed = true) :
    (⟨f.text⟩ : String) ≠ "null" := by
  obtain ⟨hdd, _⟩ := (wellFormed_iff f).mp hw
  intro h
  have hd : f.text = ['n', 'u', 'l', 'l'] := congrArg String.data h
  simp [TimestampText.text] at hd

/-- Decoding a well-formed, in-range timestamp text, wrapped in any number of
quotes, stores the hour (padded to two digits), minute and second written in
it. -/
theorem Timestamp_decode_text (ts : String) (k j : Nat) (f : TimestampText)
    (hw : f.wellFormed = true) (hr : f.inRange = true) :
    Timestamp.UnmarshalJSON ts ⟨List.replicate k '"' ++ f.text ++ List.replicate j '"'⟩
      = .ok ⟨appendInt (decimalValue f.hh : Int) 2 ++ [':', f.mi1, f.mi2, ':', f.s1, f.s2]⟩ := by
  obtain ⟨t, hp, hf⟩ := Parse_fwd f hw hr
  unfold Timestamp.UnmarshalJSON
  simp only [Trim_wrapped k j f.text (text_no_quote f hw), if_neg (text_ne_null f hw), hp, hf]

/-- With a two-digit hour and no fractional second the stored value is the time
of day as written. -/
theorem Timestamp_decode_strict (ts : String) (k j : Nat) (f : TimestampText)
    (hw : f.wellFormed = true) (hr : f.inRange = true) (hs : f.strict = true) :
    Timestamp.UnmarshalJSON ts ⟨List.replicate k '"' ++ f.text ++ List.replicate j '"'⟩
      = .ok ⟨f.timeOfDay⟩ ∧ f.timeOfDay.length = 8 := by
  obtain ⟨_, hhd, _, _, _, _, _⟩ := (wellFormed_iff f).mp hw
  simp only [TimestampText.strict, Bool.and_eq_true, decide_eq_true_eq] at hs
  obtain ⟨a, b, hab⟩ := List.length_eq_two.mp hs.1
  have key := Timestamp_decode_text ts k j f hw hr
  rw [hab] at hhd
  simp only [List.all_cons, List.all_nil, Bool.and_true, Bool.and_eq_true] at hhd
  rw [hab, appendInt_two_digits a b hhd.1 hhd.2] at key
  refine ⟨?_, ?_⟩
  · rw [key]
    simp [TimestampText.timeOfDay, hab]
  · simp [TimestampText.timeOfDay, hab]

/-- C2: every valid input `YYYY-MM-DDThh:mm:ss±HH:MM` (digits in every field, a
real calendar date, hour below 24, minute and second below 60, offset hours up
to 24 and offset minutes up to 60), bare or wrapped in double quotes, decodes
to exactly the eight characters `hh:mm:ss` written in it, whatever the date
and the offset. -/
theorem C2_timestamp_time_of_day (ts : String) (k j : Nat) (f : TimestampText)
    (hw : f.wellFormed = true) (hr : f.inRange = true) (hs : f.strict = true) :
    Timestamp.UnmarshalJSON ts ⟨List.replicate k '"' ++ f.text ++ List.replicate j '"'⟩
      = .ok ⟨f.timeOfDay⟩ ∧ f.timeOfDay.length = 8 :=
  Timestamp_decode_strict ts k j f hw hr hs

/-- C2, instances: the two texts named by the claim, which differ in the offset
only, and a text with another date and a negative offset. -/
theorem C2_timestamp_time_of_day_witness :
    Timestamp.UnmarshalJSON "" "\"2025-06-21T05:12:00+00:00\"" = .ok "05:12:00" ∧
    Timestamp.UnmarshalJSON "" "\"2025-06-21T05:12:00+05:00\"" = .ok "05:12:00" ∧
    Timestamp.UnmarshalJSON "" "2024-02-29T23:59:59-11:30" = .ok "23:59:59" :=
  ⟨(C2_timestamp_time_of_day "" 1 1
      ⟨'2', '0', '2', '5', '0', '6', '2', '1', ['0', '5'], '1', '2', '0', '0', [],
        '+', '0', '0', '0', '0'⟩ (by decide) (by decide) (by decide)).1,
   (C2_timestamp_time_of_day "" 1 1
      ⟨'2', '0', '2', '5', '0', '6', '2', '1', ['0', '5'], '1', '2', '0', '0', [],
        '+', '0', '5', '0', '0'⟩ (by decide) (by decide) (by decide)).1,
   (C2_timestamp_time_of_day "" 0 0
      ⟨'2', '0', '2', '4', '0', '2', '2', '9', ['2', '3'], '5', '9', '5', '9', [],
        '-', '1', '1', '3', '0'⟩ (by decide) (by decide) (by decide)).1⟩

/-- C7, as amended: for an input that is not `null` once trimmed, decoding
succeeds exactly when the text reads `YYYY-MM-DDTh:mm:ss±hh:mm` with an hour of
one or two digits, optionally a comma or period and one or more digits after
the seconds, and in-range fields (a real calendar date, hour below 24, minute
and second below 60, offset hours up to 24, offset minutes up to 60); every
other text fails with an error and stores nothing. In particular every text
with a two-digit hour, no fractional second and in-range fields decodes. -/
theorem C7_timestamp_decode_failure (ts b : String) (hnull : Trim b '"' ≠ "null") :
    ((∃ v, Timestamp.UnmarshalJSON ts b = .ok v) ↔
      ∃ f : TimestampText, f.wellFormed = true ∧ f.inRange = true ∧
        (Trim b '"').data = f.text) ∧
    ((∃ e, Timestamp.UnmarshalJSON ts b = .error e) ↔
      ¬ ∃ f : TimestampText, f.wellFormed = true ∧ f.inRange = true ∧
        (Trim b '"').data = f.text) ∧
    (∀ f : TimestampText, f.wellFormed = true → f.inRange = true → f.strict = true →
      (Trim b '"').data = f.text →
      Timestamp.UnmarshalJSON ts b = .ok ⟨f.timeOfDay⟩) := by
  have hok : (∃ v, Timestamp.UnmarshalJSON ts b = .ok v) ↔
      ∃ f : TimestampText, f.wellFormed = true ∧ f.inRange = true ∧
        (Trim b '"').data = f.text := by
    unfold Timestamp.UnmarshalJSON
    simp only [if_neg hnull]
    constructor
    · rintro ⟨v, hv⟩
      cases hp : Parse (Trim b '"').data with
      | error e => rw [hp] at hv; cases hv
      | ok t => exact Parse_inv _ t hp
    · rintro ⟨f, hw, hr, htext⟩
      obtain ⟨t, hp, _⟩ := Parse_fwd f hw hr
      rw [htext, hp]
      exact ⟨_, rfl⟩
  refine ⟨hok, ?_, ?_⟩
  · rw [← hok]
    cases Timestamp.UnmarshalJSON ts b with
    | error e => simp
    | ok v => simp
  · intro f hw hr hs htext
    have key := (Timestamp_decode_strict ts 0 0 f hw hr hs).1
    have hb : Trim b '"' = ⟨f.text⟩ := by rw [← htext]
    have h2 : Trim ⟨List.replicate 0 '"' ++ f.text ++ List.replicate 0 '"'⟩ '"' = ⟨f.text⟩ :=
      Trim_wrapped 0 0 f.text (text_no_quote f hw)
    unfold Timestamp.UnmarshalJSON at key ⊢
    rw [h2] at key
    rw [hb]
    exact key

/-- C7, instances: a text without offset fails, the claim's own example
decodes. -/
theorem C7_timestamp_decode_failure_witness :
    Trim "\"2025-06-21T05:12:00\"" '"' ≠ "null" ∧
    (∃ e, Timestamp.UnmarshalJSON "" "\"2025-06-21T05:12:00\"" = .error e) ∧
    (∃ v, Timestamp.UnmarshalJSON "" "\"2025-06-21T05:12:00+05:00\"" = .ok v) := by
  have h1 := C7_timestamp_decode_failure "" "\"2025-06-21T05:12:00\"" (by decide)
  have h2 := C7_timestamp_decode_failure "" "\"2025-06-21T05:12:00+05:00\"" (by decide)
  have he : Timestamp.UnmarshalJSON "" "\"2025-06-21T05:12:00\"" = .error .timeParse := by
    decide
  refine ⟨by decide, h1.2.1.mpr ?_, h2.1.mpr ?_⟩
  · rw [← h1.1]
    rintro ⟨v, hv⟩
    rw [he] at hv
    cases hv
  · exact ⟨⟨'2', '0', '2', '5', '0', '6', '2', '1', ['0', '5'], '1', '2', '0', '0', [],
      '+', '0', '5', '0', '0'⟩, by decide, by decide, by decide⟩

set_option maxRecDepth 100000 in
/-- C7 fails on its first half: a one-digit hour and a fractional second do not
conform to `YYYY-MM-DDThh:mm:ss±hh:mm`, yet both texts decode. -/
theorem C7_counterexample_relaxed :
    Timestamp.UnmarshalJSON "" "\"2025-06-21T5:12:00+05:00\"" = .ok "05:12:00" ∧
    Timestamp.UnmarshalJSON "" "\"2025-06-21T05:12:00.5+05:00\"" = .ok "05:12:00" ∧
    Timestamp.UnmarshalJSON "" "\"2025-06-21T05:12:00,123456789+05:00\"" = .ok "05:12:00" := by
  decide

/-- C3, the code at the failing input: on every raw input that is `null` once
its surrounding double quotes are removed, both decoders return without error
and leave the value at the receiver as it was; a receiver that held
`05:12:00` (or `9h 0m 0s`) holds it afterwards instead of the empty string. -/
theorem C3_null_leaves_receiver (v : String) (k j : Nat) :
    Timestamp.UnmarshalJSON v
        ⟨List.replicate k '"' ++ ['n', 'u', 'l', 'l'] ++ List.replicate j '"'⟩ = .ok v ∧
    Duration.UnmarshalJSON v
        ⟨List.replicate k '"' ++ ['n', 'u', 'l', 'l'] ++ List.replicate j '"'⟩ = .ok v ∧
    Timestamp.UnmarshalJSON "05:12:00" "null" = .ok "05:12:00" ∧
    Timestamp.UnmarshalJSON "05:12:00" "null" ≠ .ok "" ∧
    Duration.UnmarshalJSON "9h 0m 0s" "\"null\"" = .ok "9h 0m 0s" ∧
    Duration.UnmarshalJSON "9h 0m 0s" "\"null\"" ≠ .ok "" := by
  have h : Trim ⟨List.replicate k '"' ++ ['n', 'u', 'l', 'l'] ++ List.replicate j '"'⟩ '"'
      = "null" := Trim_wrapped k j ['n', 'u', 'l', 'l'] (by decide)
  refine ⟨?_, ?_, by decide, by decide, by decide, by decide⟩
  · unfold Timestamp.UnmarshalJSON; simp only [h, if_true]
  · unfold Duration.UnmarshalJSON; simp only [h, if_true]

/-! ## Lemmas: splitting and parsing coordinates -/

theorem splitChars_no_sep (a : List Char) (sep : Char) (h : sep ∉ a) :
    splitChars a sep = [a] := by
  induction a with
  | nil => rfl
  | cons c cs ih =>
    have hc : c ≠ sep := fun hh => h (by simp [hh])
    have hcs : sep ∉ cs := fun hh => h (by simp [hh])
    simp [splitChars, hc, ih hcs]

theorem splitChars_append_sep (a t : List Char) (sep : Char) (h : sep ∉ a) :
    splitChars (a ++ sep :: t) sep = a :: splitChars t sep := by
  induction a with
  | nil => simp [splitChars]
  | cons c cs ih =>
    have hc : c ≠ sep := fun hh => h (by simp [hh])
    have hcs : sep ∉ cs := fun hh => h (by simp [hh])
    simp [splitChars, hc, ih hcs]

theorem ParseFloat_NaN (atof : String → Except GoError F64) :
    ParseFloat atof "NaN" = .ok .nan := by
  have h : special "NaN".data = some (.nan, 3) := by decide
  unfold ParseFloat
  rw [h]
  rfl

/-- For a value that is not NaN the two comparisons of `main` pass exactly when
the value lies within the bounds, both included. -/
theorem range_check_iff (lo hi : ℚ) (x : F64) (hx : x ≠ .nan) :
    (F64.lt x (.fin lo) || F64.gt x (.fin hi)) = false ↔ F64.within lo hi x = true := by
  cases x with
  | nan => exact absurd rfl hx
  | negInf => simp [F64.lt, F64.gt, F64.within]
  | posInf => simp [F64.lt, F64.gt, F64.within]
  | fin q => simp [F64.lt, F64.gt, F64.within]

/-- The range check of `main` on values that are numbers: a pair of parsed
coordinates, neither of them NaN, is accepted exactly when
`-90 ≤ lat ≤ 90` and `-180 ≤ lon ≤ 180`, and is refused with an out-of-range
error otherwise. -/
theorem mainCoordinates_accept_iff (atof : String → Except GoError F64)
    (city tz coordinates a b : String) (rest : List String) (lat lon : F64)
    (hsplit : Split coordinates ',' = a :: b :: rest)
    (hlat : ParseFloat atof a = .ok lat) (hlon : ParseFloat atof b = .ok lon)
    (hnlat : lat ≠ .nan) (hnlon : lon ≠ .nan) :
    (mainCoordinates atof city tz coordinates = .ok ⟨city, tz, lat, lon⟩ ↔
      F64.within (-90) 90 lat = true ∧ F64.within (-180) 180 lon = true) ∧
    (¬ (F64.within (-90) 90 lat = true ∧ F64.within (-180) 180 lon = true) →
      mainCoordinates atof city tz coordinates = .fatal .invalidLatitude ∨
      mainCoordinates atof city tz coordinates = .fatal .invalidLongitude) := by
  have h1 := range_check_iff (-90) 90 lat hnlat
  have h2 := range_check_iff (-180) 180 lon hnlon
  unfold mainCoordinates
  simp only [hsplit, List.get?_cons_zero, List.get?_cons_succ, hlat, hlon]
  by_cases c1 : (F64.lt lat (.fin (-90)) || F64.gt lat (.fin 90)) = true
  · have n1 : ¬ F64.within (-90) 90 lat = true := by
      rw [← h1]; simp [c1]
    simp [c1, n1]
  · have y1 : F64.within (-90) 90 lat = true := h1.mp (by simpa using c1)
    by_cases c2 : (F64.lt lon (.fin (-180)) || F64.gt lon (.fin 180)) = true
    · have n2 : ¬ F64.within (-180) 180 lon = true := by
        rw [← h2]; simp [c2]
      simp [c1, c2, n2]
    · have y2 : F64.within (-180) 180 lon = true := h2.mp (by simpa using c2)
      simp [c1, c2, y1, y2]

/-- The instances of the range check named by the specification: latitude 91 and
-91 are refused, longitude 180 is accepted, a longitude above 180 is refused. -/
theorem mainCoordinates_bounds (atof : String → Except GoError F64) (city tz : String)
    (q : ℚ) (hq : 180 < q)
    (h91 : atof "91.0" = .ok (.fin 91)) (hm91 : atof "-91.0" = .ok (.fin (-91)))
    (h0 : atof "0" = .ok (.fin 0)) (h180 : atof "180.0" = .ok (.fin 180))
    (h18001 : atof "180.01" = .ok (.fin q)) :
    mainCoordinates atof city tz "91.0,0" = .fatal .invalidLatitude ∧
    mainCoordinates atof city tz "-91.0,0" = .fatal .invalidLatitude ∧
    mainCoordinates atof city tz "0,180.0" = .ok ⟨city, tz, .fin 0, .fin 180⟩ ∧
    mainCoordinates atof city tz "0,180.01" = .fatal .invalidLongitude := by
  have s1 : Split "91.0,0" ',' = ["91.0", "0"] := by decide
  have s2 : Split "-91.0,0" ',' = ["-91.0", "0"] := by decide
  have s3 : Split "0,180.0" ',' = ["0", "180.0"] := by decide
  have s4 : Split "0,180.01" ',' = ["0", "180.01"] := by decide
  have p1 : ParseFloat atof "91.0" = .ok (.fin 91) := by
    have h : special "91.0".data = none := by decide
    unfold ParseFloat; rw [h]; exact h91
  have p2 : ParseFloat atof "-91.0" = .ok (.fin (-91)) := by
    have h : special "-91.0".data = none := by decide
    unfold ParseFloat; rw [h]; exact hm91
  have p3 : ParseFloat atof "0" = .ok (.fin 0) := by
    have h : special "0".data = none := by decide
    unfold ParseFloat; rw [h]; exact h0
  have p4 : ParseFloat atof "180.0" = .ok (.fin 180) := by
    have h : special "180.0".data = none := by decide
    unfold ParseFloat; rw [h]; exact h180
  have p5 : ParseFloat atof "180.01" = .ok (.fin q) := by
    have h : special "180.01".data = none := by decide
    unfold ParseFloat; rw [h]; exact h18001
  have hq2 : ¬ q < -180 := by linarith
  refine ⟨?_, ?_, ?_, ?_⟩
  · unfold mainCoordinates
    simp only [s1, List.get?_cons_zero, p1]
    norm_num [F64.lt, F64.gt]
  · unfold mainCoordinates
    simp only [s2, List.get?_cons_zero, p2]
    norm_num [F64.lt, F64.gt]
  · unfold mainCoordinates
    simp only [s3, List.get?_cons_zero, List.get?_cons_succ, p3, p4]
    norm_num [F64.lt, F64.gt]
  · unfold mainCoordinates
    simp only [s4, List.get?_cons_zero, List.get?_cons_succ, p3, p5]
    norm_num [F64.lt, F64.gt, hq, hq2]

/-! ## Claims about the explicit-coordinate path of `main` -/

/-- C4, the code at the failing input: the text `NaN` parses without error to
a NaN, both comparisons of the range check are false on it, and `NaN,NaN` is
accepted as a `Location` although NaN lies in neither interval. -/
theorem C4_nan_passes_range_check (atof : String → Except GoError F64) (city tz : String) :
    ParseFloat atof "NaN" = .ok .nan ∧
    mainCoordinates atof city tz "NaN,NaN" = .ok ⟨city, tz, .nan, .nan⟩ ∧
    F64.within (-90) 90 .nan = false ∧ F64.within (-180) 180 .nan = false := by
  have hs : Split "NaN,NaN" ',' = ["NaN", "NaN"] := by decide
  refine ⟨ParseFloat_NaN atof, ?_, rfl, rfl⟩
  unfold mainCoordinates
  simp only [hs, List.get?_cons_zero, List.get?_cons_succ, ParseFloat_NaN]
  rfl

/-- C5, the code at the failing inputs: for a coordinate string without a comma
no `Location` is produced, and when its only component parses to a latitude
that passes the range check the run ends in the panic `index out of range [1]
with length 1`, not in a format error. -/
theorem C5_missing_longitude_panics (atof : String → Except GoError F64)
    (city tz coordinates : String) (hc : ',' ∉ coordinates.data) :
    (∀ loc, mainCoordinates atof city tz coordinates ≠ .ok loc) ∧
    (∀ lat, ParseFloat atof coordinates = .ok lat →
      (F64.lt lat (.fin (-90)) || F64.gt lat (.fin 90)) = false →
      mainCoordinates atof city tz coordinates = .indexPanic 1 1) := by
  have hs : Split coordinates ',' = [coordinates] := by
    unfold Split
    rw [splitChars_no_sep _ _ hc]
    rfl
  unfold mainCoordinates
  simp only [hs, List.get?_cons_zero, List.get?_cons_succ, List.get?_nil, List.length_cons,
    List.length_nil]
  constructor
  · intro loc
    cases ParseFloat atof coordinates with
    | error e => simp
    | ok lat =>
      by_cases c : (F64.lt lat (.fin (-90)) || F64.gt lat (.fin 90)) = true
      · simp [c]
      · simp [c]
  · intro lat hlat hr
    simp [hlat, hr]

/-- C5, instance: the specification's own example `24.85`, with a numeric
conversion that reads it as 24.85. -/
theorem C5_missing_longitude_panics_witness :
    ',' ∉ "24.85".data ∧
    mainCoordinates (fun _ => .ok (.fin (497 / 20))) "Unknown" "UTC" "24.85"
      = .indexPanic 1 1 :=
  ⟨by decide,
   (C5_missing_longitude_panics (fun _ => .ok (.fin (497 / 20))) "Unknown" "UTC" "24.85"
      (by decide)).2 (.fin (497 / 20)) rfl (by norm_num [F64.lt, F64.gt])⟩

/-- C10, as amended: the coordinate string is split at every comma; the latitude
text is what stands before the first comma, the longitude text is what stands
between the first comma and the second, and whatever follows the second comma
is ignored, so that a string with two or more commas resolves exactly as its
first two components alone. -/
theorem C10_split_every_comma (atof : String → Except GoError F64) (city tz : String)
    (a b rest : List Char) (ha : ',' ∉ a) (hb : ',' ∉ b) :
    Split ⟨a ++ (',' :: (b ++ (',' :: rest)))⟩ ',' = ⟨a⟩ :: ⟨b⟩ :: Split ⟨rest⟩ ',' ∧
    Split ⟨a ++ (',' :: b)⟩ ',' = [⟨a⟩, ⟨b⟩] ∧
    mainCoordinates atof city tz ⟨a ++ (',' :: (b ++ (',' :: rest)))⟩
      = mainCoordinates atof city tz ⟨a ++ (',' :: b)⟩ := by
  have s1 : Split ⟨a ++ (',' :: (b ++ (',' :: rest)))⟩ ',' = ⟨a⟩ :: ⟨b⟩ :: Split ⟨rest⟩ ',' := by
    unfold Split
    simp only [splitChars_append_sep a _ ',' ha, splitChars_append_sep b _ ',' hb,
      List.map_cons]
  have s2 : Split ⟨a ++ (',' :: b)⟩ ',' = [⟨a⟩, ⟨b⟩] := by
    unfold Split
    simp only [splitChars_append_sep a _ ',' ha, splitChars_no_sep b ',' hb, List.map_cons,
      List.map_nil]
  refine ⟨s1, s2, ?_⟩
  unfold mainCoordinates
  simp only [s1, s2, List.get?_cons_zero, List.get?_cons_succ]

/-- C10, instance: `1,2,3` resolves as `1,2`. -/
theorem C10_split_every_comma_witness :
    ',' ∉ "1".data ∧ ',' ∉ "2".data ∧
    Split "1,2,3" ',' = ["1", "2", "3"] ∧
    mainCoordinates (fun _ => .ok (.fin 1)) "Unknown" "UTC" "1,2,3"
      = mainCoordinates (fun _ => .ok (.fin 1)) "Unknown" "UTC" "1,2" :=
  ⟨by decide, by decide,
   (C10_split_every_comma (fun _ => .ok (.fin 1)) "Unknown" "UTC" "1".data "2".data "3".data
      (by decide) (by decide)).1,
   (C10_split_every_comma (fun _ => .ok (.fin 1)) "Unknown" "UTC" "1".data "2".data "3".data
      (by decide) (by decide)).2.2⟩

/-- C10 fails as stated: `1,2,3` is split into `1`, `2` and `3`, the longitude
text is `2` and not `2,3`, and with a numeric conversion that reads `1` and
`2` and refuses every other text a `Location` is produced. -/
theorem C10_counterexample_three_components :
    Split "1,2,3" ',' = ["1", "2", "3"] ∧
    mainCoordinates
        (fun s => if s = "1" then .ok (.fin 1) else if s = "2" then .ok (.fin 2)
          else .error .numSyntax)
        "Unknown" "UTC" "1,2,3"
      = .ok ⟨"Unknown", "UTC", .fin 1, .fin 2⟩ := by
  decide

/-! ## Claims about the report -/

set_option maxRecDepth 100000 in
theorem parseTemplate_report : parseTemplate report.data false [] = .ok reportNodes := by
  decide

set_option maxRecDepth 100000 in
/-- C6: for every `Times` value the rendered report is an empty first line, then
the lines Sunrise, Sunset, Solar noon, Day length, the heading `Twilight`, and
the six twilight lines in order, each field line being its 30-column label
followed by the field's value as it is (nothing, when the field is empty), and
a final newline. -/
theorem C6_report_layout (t : Times) :
    renderReport t = .ok (String.intercalate "\n" ["",
      "Sunrise                       " ++ t.Sunrise,
      "Sunset                        " ++ t.Sunset,
      "Solar noon                    " ++ t.Solar_noon,
      "Day length                    " ++ t.Day_length,
      "Twilight",
      "- Civil (beg)                 " ++ t.Civil_twilight_begin,
      "- Civil (end)                 " ++ t.Civil_twilight_end,
      "- Nautical (beg)              " ++ t.Nautical_twilight_begin,
      "- Nautical (end)              " ++ t.Nautical_twilight_end,
      "- Astronomical (beg)          " ++ t.Astronomical_twilight_begin,
      "- Astronomical (end)          " ++ t.Astronomical_twilight_end,
      ""]) ∧
    ["Sunrise                       ", "Sunset                        ",
      "Solar noon                    ", "Day length                    ",
      "- Civil (beg)                 ", "- Civil (end)                 ",
      "- Nautical (beg)              ", "- Nautical (end)              ",
      "- Astronomical (beg)          ", "- Astronomical (end)          "].all
        (fun label => decide (label.length = 30)) = true ∧
    renderReport ⟨"05:12:03", "", "", "12h 30m 0s", "", "", "", "", "", ""⟩
      = .ok ("\nSunrise                       05:12:03\nSunset                        \n"
        ++ "Solar noon                    \nDay length                    12h 30m 0s\n"
        ++ "Twilight\n- Civil (beg)                 \n- Civil (end)                 \n"
        ++ "- Nautical (beg)              \n- Nautical (end)              \n"
        ++ "- Astronomical (beg)          \n- Astronomical (end)          \n") := by
  have hgen : ∀ t : Times, renderReport t = .ok (String.intercalate "\n" ["",
      "Sunrise                       " ++ t.Sunrise,
      "Sunset                        " ++ t.Sunset,
      "Solar noon                    " ++ t.Solar_noon,
      "Day length                    " ++ t.Day_length,
      "Twilight",
      "- Civil (beg)                 " ++ t.Civil_twilight_begin,
      "- Civil (end)                 " ++ t.Civil_twilight_end,
      "- Nautical (beg)              " ++ t.Nautical_twilight_begin,
      "- Nautical (end)              " ++ t.Nautical_twilight_end,
      "- Astronomical (beg)          " ++ t.Astronomical_twilight_begin,
      "- Astronomical (end)          " ++ t.Astronomical_twilight_end,
      ""]) := by
    intro t
    unfold renderReport
    rw [parseTemplate_report]
    simp only [reportNodes, Execute, Times.evalField]
    simp
    apply String.ext
    simp only [String.intercalate, String.intercalate.go, String.data_append,
      List.append_assoc]
    rfl
  refine ⟨hgen t, by decide, ?_⟩
  rw [hgen]
  decide


end Suntimes
